import Mathlib

/-!
The record classifier and tree builder of `main.go`

A shallow embedding of `readCSV` and its helpers.

* Go strings are modelled by `String` (sequences of Unicode code points, i.e.
  valid UTF-8 text).
* A `[]string` record is a `List String`; a nil pointer is `none`.
* The pointer cursors `currentCategory` / `currentFundHouse` are explicit
  components of a `ParserState`; a helper that mutates through a pointer
  returns the updated value.
* An indexing expression `record[i]` is `record[i]?`; a function that may
  index returns `Option`, where `none` stands for the run-time panic
  "index out of range".
* The `csv.Reader` is the list of what successive `reader.Read()` calls
  return; the exhausted list is `io.EOF`.
-/

namespace MfNavParser

open scoped List

/-! ## Data model (`main.go` lines 18-37) -/

/-- The Go struct `MutualFund`: eight string fields. -/
structure MutualFund where
  SchemeCode : String
  SchemeName : String
  ISINDivPayout : String
  ISINDivReinvestment : String
  NetAssetValue : String
  RepurchasePrice : String
  SalePrice : String
  Date : String
  deriving DecidableEq

/-- The Go struct `FundHouse`. -/
structure FundHouse where
  Name : String
  Funds : List MutualFund
  deriving DecidableEq

/-- The Go struct `SchemeCategory`. -/
structure SchemeCategory where
  Name : String
  FundHouses : List FundHouse
  deriving DecidableEq

/-! ## The two library functions of package `strings` used by the parser -/

/-- The predicate `unicode.IsSpace`: the code points with the Unicode
White_Space property. -/
def isSpace (c : Char) : Bool :=
  let n := c.toNat
  (9 ≤ n && n ≤ 13) || n == 0x20 || n == 0x85 || n == 0xA0 || n == 0x1680 ||
  (0x2000 ≤ n && n ≤ 0x200A) || n == 0x2028 || n == 0x2029 || n == 0x202F ||
  n == 0x205F || n == 0x3000

/-- The function `strings.TrimSpace`: all leading and trailing white space
removed. -/
def TrimSpace (s : String) : String :=
  ⟨((s.data.dropWhile isSpace).reverse.dropWhile isSpace).reverse⟩

/-- Whether `sub` occurs in `l` as a block of consecutive characters. -/
def containsChars (sub : List Char) : List Char → Bool
  | [] => sub.isEmpty
  | c :: cs => sub.isPrefixOf (c :: cs) || containsChars sub cs

/-- The function `strings.Contains`: whether `substr` is within `s`. -/
def Contains (s substr : String) : Bool :=
  containsChars substr.data s.data

/-! ## The record source -/

/-- A Go `error` value surfaced by the record source. -/
structure ReadError where
  msg : String
  deriving DecidableEq

/-- What one call of `reader.Read()` returns before the end of input: a record,
or an error other than `io.EOF`. -/
inductive ReadEvent where
  | record (fields : List String)
  | failure (err : ReadError)
  deriving DecidableEq

/-- A record source that delivers the given records and then ends normally. -/
def delivered (records : List (List String)) : List ReadEvent :=
  records.map ReadEvent.record

/-! ## The parser (`main.go` lines 59-156) -/

/-- The three local variables of `readCSV`. -/
structure ParserState where
  categories : List SchemeCategory
  currentCategory : Option SchemeCategory
  currentFundHouse : Option FundHouse
  deriving DecidableEq

/-- `skipEmptyLines` (lines 98-100):
`len(record) == 1 && strings.TrimSpace(record[0]) == ""`. -/
def skipEmptyLines (record : List String) : Option Bool :=
  if record.length == 1 then do
    let field ← record[0]?
    pure (TrimSpace field == "")
  else
    pure false

/-- `finalizeFundHouse` (lines 150-156): appends a copy of the open fund house
to the open category when the fund house has funds and a category is open.
Returns the category cursor after the call. -/
def finalizeFundHouse (currentCategory : Option SchemeCategory)
    (currentFundHouse : Option FundHouse) : Option SchemeCategory :=
  match currentFundHouse with
  | some fh =>
    if fh.Funds.length > 0 then
      match currentCategory with
      | some cat => some { cat with FundHouses := cat.FundHouses ++ [fh] }
      | none => none
    else currentCategory
  | none => currentCategory

/-- `finalizeCategoryAndFundHouse` (lines 139-146): finalizes the fund house,
then appends a copy of the category to `categories` when it has fund houses.
Returns `categories` and the category cursor after the call. -/
def finalizeCategoryAndFundHouse (categories : List SchemeCategory)
    (currentCategory : Option SchemeCategory) (currentFundHouse : Option FundHouse) :
    List SchemeCategory × Option SchemeCategory :=
  let currentCategory := finalizeFundHouse currentCategory currentFundHouse
  match currentCategory with
  | some cat =>
    if cat.FundHouses.length > 0 then (categories ++ [cat], currentCategory)
    else (categories, currentCategory)
  | none => (categories, currentCategory)

/-- `parseCategoryOrFundHouse` (lines 104-118). -/
def parseCategoryOrFundHouse (record : List String) (st : ParserState) : Option ParserState :=
  if record.length == 1 then do
    let field ← record[0]?
    if Contains field "Schemes" then
      let fin := finalizeCategoryAndFundHouse st.categories st.currentCategory st.currentFundHouse
      pure { categories := fin.1,
             currentCategory := some { Name := TrimSpace field, FundHouses := [] },
             currentFundHouse := none }
    else
      let cat := finalizeFundHouse st.currentCategory st.currentFundHouse
      pure { categories := st.categories,
             currentCategory := cat,
             currentFundHouse := some { Name := TrimSpace field, Funds := [] } }
  else
    pure st

/-- `parseFund` (lines 121-135). Returns the fund-house cursor after the call. -/
def parseFund (record : List String) (currentFundHouse : Option FundHouse) :
    Option (Option FundHouse) :=
  match currentFundHouse with
  | some fh => do
    let f0 ← record[0]?
    let f1 ← record[1]?
    let f2 ← record[2]?
    let f3 ← record[3]?
    let f4 ← record[4]?
    let f5 ← record[5]?
    let f6 ← record[6]?
    let f7 ← record[7]?
    let fund : MutualFund :=
      { SchemeCode := f0, SchemeName := f1, ISINDivPayout := f2, ISINDivReinvestment := f3,
        NetAssetValue := f4, RepurchasePrice := f5, SalePrice := f6, Date := f7 }
    pure (some { fh with Funds := fh.Funds ++ [fund] })
  | none => pure none

/-- The `for` loop of `readCSV` (lines 69-88) followed by the final
`finalizeCategoryAndFundHouse` and `return` (lines 91-93). The result is the pair
returned by `readCSV`: the categories (nil is the empty list) and the error
(nil is `none`). -/
def readLoop : List ReadEvent → ParserState → Option (List SchemeCategory × Option ReadError)
  | [], st =>
    let fin := finalizeCategoryAndFundHouse st.categories st.currentCategory st.currentFundHouse
    some (fin.1, none)
  | ReadEvent.failure err :: _, _ => some ([], some err)
  | ReadEvent.record record :: rest, st => do
    let skip ← skipEmptyLines record
    if skip then readLoop rest st
    else
      let st1 ← parseCategoryOrFundHouse record st
      if record.length == 8 then
        let fh ← parseFund record st1.currentFundHouse
        readLoop rest { st1 with currentFundHouse := fh }
      else readLoop rest st1

/-- `readCSV` (lines 59-94), on the successive results of `reader.Read()`. -/
def readCSV (source : List ReadEvent) : Option (List SchemeCategory × Option ReadError) :=
  readLoop source { categories := [], currentCategory := none, currentFundHouse := none }

/-! ## Record kinds and positional copies, as the specification words them -/

/-- A blank record: exactly one field whose trimmed content is empty. -/
def isBlank (record : List String) : Bool :=
  match record with
  | [x] => TrimSpace x == ""
  | _ => false

/-- A category header: a single-field record whose text contains "Schemes". -/
def isCategoryHeader (record : List String) : Bool :=
  match record with
  | [x] => Contains x "Schemes"
  | _ => false

/-- A fund-house header: a single-field record whose text is non-blank and
does not contain "Schemes". -/
def isFundHouseHeader (record : List String) : Bool :=
  match record with
  | [x] => TrimSpace x != "" && !Contains x "Schemes"
  | _ => false

/-- The trimmed text of a single-field record. -/
def headerName (record : List String) : String :=
  TrimSpace (record.headD "")

/-- The positional, verbatim copy of a record into a fund entry: field 0 is the
scheme code, ..., field 7 is the date. -/
def positionalCopy (record : List String) : MutualFund :=
  { SchemeCode := record.getD 0 "", SchemeName := record.getD 1 "",
    ISINDivPayout := record.getD 2 "", ISINDivReinvestment := record.getD 3 "",
    NetAssetValue := record.getD 4 "", RepurchasePrice := record.getD 5 "",
    SalePrice := record.getD 6 "", Date := record.getD 7 "" }

/-- All fund entries of a tree, in tree order. -/
def allFunds (categories : List SchemeCategory) : List MutualFund :=
  categories.flatMap fun c => c.FundHouses.flatMap fun fh => fh.Funds

/-- All fund houses of a tree, in tree order. -/
def allFundHouses (categories : List SchemeCategory) : List FundHouse :=
  categories.flatMap fun c => c.FundHouses

/-! ## A total, panic-free reading of the loop body, used in the proofs -/

/-- The fund houses that `finalizeFundHouse` appends for a given cursor. -/
def emitHouse (currentFundHouse : Option FundHouse) : List FundHouse :=
  match currentFundHouse with
  | some fh => if fh.Funds.length > 0 then [fh] else []
  | none => []

/-- The categories that `finalizeCategoryAndFundHouse` appends for a given
(already finalized) category cursor. -/
def emitCategory (currentCategory : Option SchemeCategory) : List SchemeCategory :=
  match currentCategory with
  | some cat => if cat.FundHouses.length > 0 then [cat] else []
  | none => []

/-- The state after one pass through the loop body on `record`. -/
def applyRecord (st : ParserState) (record : List String) : ParserState :=
  match record with
  | [x] =>
    if TrimSpace x = "" then st
    else if Contains x "Schemes" then
      { categories :=
          st.categories ++ emitCategory (finalizeFundHouse st.currentCategory st.currentFundHouse),
        currentCategory := some { Name := TrimSpace x, FundHouses := [] },
        currentFundHouse := none }
    else
      { categories := st.categories,
        currentCategory := finalizeFundHouse st.currentCategory st.currentFundHouse,
        currentFundHouse := some { Name := TrimSpace x, Funds := [] } }
  | _ =>
    if record.length = 8 then
      { st with currentFundHouse :=
          st.currentFundHouse.map fun fh =>
            { fh with Funds := fh.Funds ++ [positionalCopy record] } }
    else st

/-- The categories returned at the end of input from state `st`. -/
def finish (st : ParserState) : List SchemeCategory :=
  st.categories ++ emitCategory (finalizeFundHouse st.currentCategory st.currentFundHouse)

/-- The initial state of `readCSV`. -/
def initState : ParserState :=
  { categories := [], currentCategory := none, currentFundHouse := none }

/-! ## Predicates used in the proofs -/

/-- Every fund house of the category has funds. -/
def HousesFilled (cat : SchemeCategory) : Prop :=
  ∀ fh ∈ cat.FundHouses, 0 < fh.Funds.length

/-- The invariant of the loop: the finalized categories have fund houses, and
every fund house attached so far has funds. -/
structure Inv (st : ParserState) : Prop where
  closed : ∀ c ∈ st.categories, 0 < c.FundHouses.length ∧ HousesFilled c
  current : ∀ cat, st.currentCategory = some cat → HousesFilled cat

/-- The fund entries a category cursor holds, in order. -/
def fundsOfCategory (cc : Option SchemeCategory) : List MutualFund :=
  match cc with
  | some cat => cat.FundHouses.flatMap fun fh => fh.Funds
  | none => []

/-- The fund entries a fund-house cursor holds, in order. -/
def fundsOfHouse (cfh : Option FundHouse) : List MutualFund :=
  match cfh with
  | some fh => fh.Funds
  | none => []

/-- Every fund entry held anywhere in the state, in reading order. -/
def pendingFunds (st : ParserState) : List MutualFund :=
  allFunds st.categories ++ (fundsOfCategory st.currentCategory ++
    fundsOfHouse st.currentFundHouse)

/-- Every category name held in the state, in reading order. -/
def pendingCategoryNames (st : ParserState) : List String :=
  st.categories.map (fun c => c.Name) ++ (st.currentCategory.toList.map fun c => c.Name)

/-- The fund-house names a category cursor holds. -/
def houseNamesOfCategory (cc : Option SchemeCategory) : List String :=
  match cc with
  | some cat => cat.FundHouses.map fun fh => fh.Name
  | none => []

/-- Every fund-house name held in the state, in reading order. -/
def pendingHouseNames (st : ParserState) : List String :=
  (allFundHouses st.categories).map (fun fh => fh.Name) ++
    (houseNamesOfCategory st.currentCategory ++
      (st.currentFundHouse.toList.map fun fh => fh.Name))

/-- Two states that no continuation of the input can tell apart: they agree on
the finalized categories and the category cursor, and also on the fund-house
cursor unless no category is open. -/
def Sim (s t : ParserState) : Prop :=
  s.categories = t.categories ∧ s.currentCategory = t.currentCategory ∧
    (s.currentCategory = none ∨ s.currentFundHouse = t.currentFundHouse)

/-- The two roles a single-field non-blank record can play. -/
inductive HeaderKind where
  | category
  | fundHouse
  deriving DecidableEq

/-- The classification of a single-field non-blank record as the specification
words it: a category header when the trimmed text contains the marker
"Schemes", a fund-house header otherwise. -/
def specHeaderKind (x : String) : HeaderKind :=
  if Contains (TrimSpace x) "Schemes" then HeaderKind.category else HeaderKind.fundHouse

/-- The two branches of `parseCategoryOrFundHouse`: lines 108-111 for a category
header, lines 113-115 for a fund-house header. -/
def headerAction (k : HeaderKind) (name : String) (st : ParserState) : ParserState :=
  match k with
  | HeaderKind.category =>
    { categories :=
        (finalizeCategoryAndFundHouse st.categories st.currentCategory st.currentFundHouse).1,
      currentCategory := some { Name := name, FundHouses := [] },
      currentFundHouse := none }
  | HeaderKind.fundHouse =>
    { categories := st.categories,
      currentCategory := finalizeFundHouse st.currentCategory st.currentFundHouse,
      currentFundHouse := some { Name := name, Funds := [] } }

/-- The text has no leading and no trailing white space: neither its first nor
its last character is a space in the sense of `isSpace`. -/
def noEdgeSpace (s : String) : Bool :=
  (match s.data.head? with
   | some c => !isSpace c
   | none => true) &&
  (match s.data.getLast? with
   | some c => !isSpace c
   | none => true)

/-- The state with `p` put in front of its finalized categories. -/
def withPrefix (p : List SchemeCategory) (st : ParserState) : ParserState :=
  { st with categories := p ++ st.categories }

/-! ## Flattening a tree back to records -/

/-- The 8-field record of a fund entry. -/
def recordOfFund (f : MutualFund) : List String :=
  [f.SchemeCode, f.SchemeName, f.ISINDivPayout, f.ISINDivReinvestment, f.NetAssetValue,
    f.RepurchasePrice, f.SalePrice, f.Date]

/-- A fund house as records: its name as a single-field record, then its
entries as 8-field records. -/
def flattenHouse (fh : FundHouse) : List (List String) :=
  [fh.Name] :: fh.Funds.map recordOfFund

/-- A category as records: its name as a single-field record, then its fund
houses. -/
def flattenCategory (c : SchemeCategory) : List (List String) :=
  [c.Name] :: c.FundHouses.flatMap flattenHouse

/-- A tree as records. -/
def flattenTree (cats : List SchemeCategory) : List (List String) :=
  cats.flatMap flattenCategory

/-- A well-formed fund house: at least one entry, and a name that is trimmed,
non-empty and does not contain "Schemes". -/
def WellFormedHouse (fh : FundHouse) : Prop :=
  0 < fh.Funds.length ∧ noEdgeSpace fh.Name = true ∧ fh.Name ≠ "" ∧
    Contains fh.Name "Schemes" = false

/-- A well-formed category: at least one fund house, all of them well-formed,
and a name that is trimmed and contains "Schemes". -/
def WellFormedCategory (c : SchemeCategory) : Prop :=
  0 < c.FundHouses.length ∧ noEdgeSpace c.Name = true ∧ Contains c.Name "Schemes" = true ∧
    ∀ fh ∈ c.FundHouses, WellFormedHouse fh

/-- A well-formed tree. -/
def WellFormedTree (cats : List SchemeCategory) : Prop :=
  ∀ c ∈ cats, WellFormedCategory c

/-! ## The rows read while a category and a fund house are open -/

/-- The records after the most recent category header of `pre`; `none` when
`pre` has no category header. -/
def sinceLastCategory : List (List String) → Option (List (List String))
  | [] => none
  | r :: rest =>
    match sinceLastCategory rest with
    | some tail => some tail
    | none => if isCategoryHeader r then some rest else none

/-- After `pre`, both a category and a fund house are open: some category
header occurs in `pre`, and a fund-house header lies after the most recent one. -/
def bothOpen (pre : List (List String)) : Bool :=
  match sinceLastCategory pre with
  | some tail => tail.any isFundHouseHeader
  | none => false

/-- The 8-field records of the input that are read, after the records `pre`,
while both a category and a fund house are open. -/
def retainedFrom (pre : List (List String)) : List (List String) → List (List String)
  | [] => []
  | r :: rest =>
    if r.length == 8 && bothOpen pre then r :: retainedFrom (pre ++ [r]) rest
    else retainedFrom (pre ++ [r]) rest

/-- The 8-field records of the input that are read while both a category and a
fund house are open. -/
def retainedRows (recs : List (List String)) : List (List String) :=
  retainedFrom [] recs

/-- The fund entries of the state that the end of input would return. -/
def liveFunds (st : ParserState) : List MutualFund :=
  allFunds st.categories ++
    (if st.currentCategory.isSome then
      fundsOfCategory st.currentCategory ++ fundsOfHouse st.currentFundHouse
     else [])

/-- The cursors of `st` are those the records `pre` call for. -/
structure Tracks (pre : List (List String)) (st : ParserState) : Prop where
  category : st.currentCategory.isSome = (sinceLastCategory pre).isSome
  both : (st.currentCategory.isSome && st.currentFundHouse.isSome) = bothOpen pre

/-! ## Basic lemmas -/

theorem finalizeFundHouse_eq (cc : Option SchemeCategory) (cfh : Option FundHouse) :
    finalizeFundHouse cc cfh =
      cc.map fun cat => { cat with FundHouses := cat.FundHouses ++ emitHouse cfh } := by
  cases cfh with
  | none => cases cc <;> simp [finalizeFundHouse, emitHouse]
  | some fh =>
    by_cases h : fh.Funds.length > 0 <;> cases cc <;> simp [finalizeFundHouse, emitHouse, h]

theorem finalizeCategoryAndFundHouse_fst (cats : List SchemeCategory)
    (cc : Option SchemeCategory) (cfh : Option FundHouse) :
    (finalizeCategoryAndFundHouse cats cc cfh).1 = cats ++ emitCategory (finalizeFundHouse cc cfh) := by
  unfold finalizeCategoryAndFundHouse emitCategory
  cases finalizeFundHouse cc cfh with
  | none => simp
  | some cat => by_cases h : cat.FundHouses.length > 0 <;> simp [h]

theorem length_eq_eight {r : List String} (h : r.length = 8) :
    ∃ a b c d e f g k, r = [a, b, c, d, e, f, g, k] := by
  rcases r with _ | ⟨a, _ | ⟨b, _ | ⟨c, _ | ⟨d, _ | ⟨e, _ | ⟨f, _ | ⟨g, _ | ⟨k, _ | ⟨m, r⟩⟩⟩⟩⟩⟩⟩⟩⟩ <;>
    simp at h
  exact ⟨a, b, c, d, e, f, g, k, rfl⟩

theorem parseFund_of_length {r : List String} (h : r.length = 8) (cfh : Option FundHouse) :
    parseFund r cfh =
      some (cfh.map fun fh => { fh with Funds := fh.Funds ++ [positionalCopy r] }) := by
  obtain ⟨a, b, c, d, e, f, g, k, rfl⟩ := length_eq_eight h
  cases cfh <;> simp [parseFund, positionalCopy]

/-- One iteration of the loop never panics and is `applyRecord`. -/
theorem readLoop_record (r : List String) (rest : List ReadEvent) (st : ParserState) :
    readLoop (ReadEvent.record r :: rest) st = readLoop rest (applyRecord st r) := by
  rcases r with _ | ⟨x, _ | ⟨y, r⟩⟩
  · simp [readLoop, skipEmptyLines, parseCategoryOrFundHouse, applyRecord]
  · by_cases hb : TrimSpace x = ""
    · simp [readLoop, skipEmptyLines, applyRecord, hb]
    · by_cases hc : Contains x "Schemes" = true
      · simp [readLoop, skipEmptyLines, parseCategoryOrFundHouse, applyRecord, hb, hc,
          finalizeCategoryAndFundHouse_fst]
      · simp [readLoop, skipEmptyLines, parseCategoryOrFundHouse, applyRecord, hb, hc]
  · by_cases h8 : (x :: y :: r).length = 8
    · have hp := parseFund_of_length h8 st.currentFundHouse
      have h8' : r.length = 6 := by simpa using h8
      simp [readLoop, skipEmptyLines, parseCategoryOrFundHouse, applyRecord, hp, h8']
    · have h8' : ¬ r.length = 6 := by simpa using h8
      simp [readLoop, skipEmptyLines, parseCategoryOrFundHouse, applyRecord, h8']

theorem readLoop_delivered (recs : List (List String)) (st : ParserState) :
    readLoop (delivered recs) st = some (finish (recs.foldl applyRecord st), none) := by
  induction recs generalizing st with
  | nil => simp [delivered, readLoop, finish, finalizeCategoryAndFundHouse_fst]
  | cons r recs ih =>
    have := ih (applyRecord st r)
    simp only [delivered, List.map_cons, List.foldl_cons] at this ⊢
    rw [readLoop_record, this]

theorem readCSV_delivered (recs : List (List String)) :
    readCSV (delivered recs) = some (finish (recs.foldl applyRecord initState), none) := by
  unfold readCSV
  exact readLoop_delivered recs initState

/-! ## The non-emptiness invariant -/

theorem emitHouse_filled (cfh : Option FundHouse) :
    ∀ fh ∈ emitHouse cfh, 0 < fh.Funds.length := by
  intro fh hfh
  cases cfh with
  | none => simp [emitHouse] at hfh
  | some g =>
    by_cases h : g.Funds.length > 0
    · simp [emitHouse, h] at hfh
      subst hfh
      exact h
    · simp [emitHouse, h] at hfh

theorem finalizeFundHouse_filled {cc : Option SchemeCategory} (cfh : Option FundHouse)
    (h : ∀ cat, cc = some cat → HousesFilled cat) :
    ∀ cat, finalizeFundHouse cc cfh = some cat → HousesFilled cat := by
  intro cat hcat
  rw [finalizeFundHouse_eq] at hcat
  cases cc with
  | none => simp at hcat
  | some c0 =>
    simp only [Option.map_some', Option.some.injEq] at hcat
    subst hcat
    intro fh hfh
    simp only [List.mem_append] at hfh
    rcases hfh with hfh | hfh
    · exact h c0 rfl fh hfh
    · exact emitHouse_filled cfh fh hfh

theorem emitCategory_mem {cc : Option SchemeCategory} {c : SchemeCategory}
    (hc : c ∈ emitCategory cc) : cc = some c ∧ 0 < c.FundHouses.length := by
  cases cc with
  | none => simp [emitCategory] at hc
  | some c0 =>
    by_cases h : c0.FundHouses.length > 0
    · simp [emitCategory, h] at hc
      subst hc
      exact ⟨rfl, h⟩
    · simp [emitCategory, h] at hc

theorem closed_append_emit {st : ParserState} (h : Inv st) :
    ∀ c ∈ st.categories ++ emitCategory (finalizeFundHouse st.currentCategory st.currentFundHouse),
      0 < c.FundHouses.length ∧ HousesFilled c := by
  intro c hc
  simp only [List.mem_append] at hc
  rcases hc with hc | hc
  · exact h.closed c hc
  · obtain ⟨h1, h2⟩ := emitCategory_mem hc
    exact ⟨h2, finalizeFundHouse_filled st.currentFundHouse h.current c h1⟩

theorem Inv_initState : Inv initState :=
  ⟨by simp [initState], by simp [initState]⟩

theorem Inv_applyRecord {st : ParserState} (h : Inv st) (r : List String) :
    Inv (applyRecord st r) := by
  unfold applyRecord
  split
  · rename_i x
    by_cases hb : TrimSpace x = ""
    · simpa [hb] using h
    · by_cases hc : Contains x "Schemes" = true
      · simp only [hb, hc, if_false, if_true]
        refine ⟨closed_append_emit h, ?_⟩
        intro cat hcat
        simp only [Option.some.injEq] at hcat
        subst hcat
        intro fh hfh
        simp at hfh
      · simp only [hb, hc, if_false]
        exact ⟨h.closed, finalizeFundHouse_filled st.currentFundHouse h.current⟩
  · split
    · exact ⟨h.closed, h.current⟩
    · exact h

theorem Inv_foldl (recs : List (List String)) {st : ParserState} (h : Inv st) :
    Inv (recs.foldl applyRecord st) := by
  induction recs generalizing st with
  | nil => exact h
  | cons r recs ih => exact ih (Inv_applyRecord h r)

theorem finish_filled (recs : List (List String)) :
    ∀ c ∈ finish (recs.foldl applyRecord initState),
      0 < c.FundHouses.length ∧ HousesFilled c :=
  closed_append_emit (Inv_foldl recs Inv_initState)

/-! ## Facts about `TrimSpace` and `Contains` -/

theorem containsChars_iff (sub l : List Char) : containsChars sub l = true ↔ sub <:+: l := by
  induction l with
  | nil => cases sub <;> simp [containsChars]
  | cons a l ih => simp [containsChars, List.infix_cons_iff, ih]

theorem TrimSpace_eq_empty_iff (s : String) :
    TrimSpace s = "" ↔ ∀ c ∈ s.data, isSpace c = true := by
  have h0 : ("" : String) = ⟨[]⟩ := rfl
  rw [TrimSpace, h0, String.ext_iff]
  simp only [List.reverse_eq_nil_iff, List.dropWhile_eq_nil_iff, List.mem_reverse]
  constructor
  · intro h
    have hd : s.data.dropWhile isSpace = [] := by
      cases hl : s.data.dropWhile isSpace with
      | nil => rfl
      | cons a t =>
        have h1 := List.head_dropWhile_not isSpace s.data (by simp [hl])
        have h2 := h a (by simp [hl])
        simp [hl] at h1
        simp [h1] at h2
    exact List.dropWhile_eq_nil_iff.mp hd
  · intro h c hc
    exact h c ((List.dropWhile_suffix _).subset hc)

/-- A text containing "Schemes" is not blank. -/
theorem TrimSpace_ne_empty_of_Contains {s : String} (h : Contains s "Schemes" = true) :
    TrimSpace s ≠ "" := by
  intro he
  rw [TrimSpace_eq_empty_iff] at he
  rw [Contains, containsChars_iff] at h
  have hS : 'S' ∈ s.data := h.subset (by decide)
  have := he _ hS
  revert this
  decide

/-! ## The loop body by record kind -/

theorem applyRecord_blank (st : ParserState) {x : String} (hb : TrimSpace x = "") :
    applyRecord st [x] = st := by
  simp [applyRecord, hb]

theorem applyRecord_category (st : ParserState) {x : String}
    (hc : Contains x "Schemes" = true) :
    applyRecord st [x] =
      { categories :=
          st.categories ++ emitCategory (finalizeFundHouse st.currentCategory st.currentFundHouse),
        currentCategory := some { Name := TrimSpace x, FundHouses := [] },
        currentFundHouse := none } := by
  simp [applyRecord, hc, TrimSpace_ne_empty_of_Contains hc]

theorem applyRecord_house (st : ParserState) {x : String}
    (hb : TrimSpace x ≠ "") (hc : Contains x "Schemes" = false) :
    applyRecord st [x] =
      { categories := st.categories,
        currentCategory := finalizeFundHouse st.currentCategory st.currentFundHouse,
        currentFundHouse := some { Name := TrimSpace x, Funds := [] } } := by
  simp [applyRecord, hc, hb]

theorem applyRecord_row (st : ParserState) {r : List String} (h : r.length = 8) :
    applyRecord st r =
      { st with currentFundHouse :=
          st.currentFundHouse.map fun fh =>
            { fh with Funds := fh.Funds ++ [positionalCopy r] } } := by
  obtain ⟨a, b, c, d, e, f, g, k, rfl⟩ := length_eq_eight h
  simp [applyRecord]

theorem applyRecord_other (st : ParserState) {r : List String}
    (h1 : r.length ≠ 1) (h8 : r.length ≠ 8) : applyRecord st r = st := by
  unfold applyRecord
  split
  · simp at h1
  · simp [h8]

theorem foldl_rows (rows : List (List String)) (h : ∀ x ∈ rows, x.length = 8)
    (cats : List SchemeCategory) (cc : Option SchemeCategory) (n : String)
    (fs : List MutualFund) :
    rows.foldl applyRecord
        { categories := cats, currentCategory := cc,
          currentFundHouse := some { Name := n, Funds := fs } } =
      { categories := cats, currentCategory := cc,
        currentFundHouse := some { Name := n, Funds := fs ++ rows.map positionalCopy } } := by
  induction rows generalizing fs with
  | nil => simp
  | cons r rows ih =>
    have hr : r.length = 8 := h r (by simp)
    have ht : ∀ x ∈ rows, x.length = 8 := fun x hx => h x (by simp [hx])
    rw [List.foldl_cons, applyRecord_row _ hr]
    simp only [Option.map_some']
    rw [ih ht]
    simp

/-! ## Order preservation: what the state holds is a subsequence of what was read -/

theorem foldl_sublist {α : Type} (m : ParserState → List α) (g : List String → List α)
    (hstep : ∀ st r, m (applyRecord st r) <+ m st ++ g r) (recs : List (List String))
    (st : ParserState) :
    m (recs.foldl applyRecord st) <+ m st ++ recs.flatMap g := by
  induction recs generalizing st with
  | nil => simp
  | cons r recs ih =>
    rw [List.foldl_cons, List.flatMap_cons, ← List.append_assoc]
    exact (ih (applyRecord st r)).trans ((hstep st r).append_right _)

theorem flatMap_ite_singleton {α β : Type} (p : α → Bool) (f : α → β) (l : List α) :
    (l.flatMap fun a => if p a = true then [f a] else []) = (l.filter p).map f := by
  induction l with
  | nil => simp
  | cons a l ih =>
    by_cases h : p a = true <;> simp [List.flatMap_cons, List.filter_cons, h, ih]

theorem allFunds_append (a b : List SchemeCategory) :
    allFunds (a ++ b) = allFunds a ++ allFunds b := by
  simp [allFunds]

theorem allFunds_emitCategory (cc : Option SchemeCategory) :
    allFunds (emitCategory cc) <+ fundsOfCategory cc := by
  cases cc with
  | none => simp [emitCategory, allFunds]
  | some cat =>
    by_cases h : cat.FundHouses.length > 0 <;>
      simp [emitCategory, allFunds, fundsOfCategory, h]

theorem fundsOfCategory_finalize (cc : Option SchemeCategory) (cfh : Option FundHouse) :
    fundsOfCategory (finalizeFundHouse cc cfh) <+ fundsOfCategory cc ++ fundsOfHouse cfh := by
  rw [finalizeFundHouse_eq]
  cases cc with
  | none => simp [fundsOfCategory]
  | some cat =>
    cases cfh with
    | none => simp [fundsOfCategory, emitHouse]
    | some fh =>
      by_cases h : fh.Funds.length > 0 <;>
        simp [fundsOfCategory, fundsOfHouse, emitHouse, h]

theorem allFunds_finish (st : ParserState) : allFunds (finish st) <+ pendingFunds st := by
  rw [finish, allFunds_append, pendingFunds]
  exact ((allFunds_emitCategory _).trans (fundsOfCategory_finalize _ _)).append_left _

theorem pendingFunds_step (st : ParserState) (r : List String) :
    pendingFunds (applyRecord st r) <+
      pendingFunds st ++ (if (fun x : List String => x.length == 8) r = true
        then [positionalCopy r] else []) := by
  rcases r with _ | ⟨x, _ | ⟨y, r⟩⟩
  · simp [applyRecord]
  · show pendingFunds (applyRecord st [x]) <+ pendingFunds st ++ []
    rw [List.append_nil]
    by_cases hb : TrimSpace x = ""
    · simp [applyRecord_blank st hb]
    · by_cases hc : Contains x "Schemes" = true
      · rw [applyRecord_category st hc]
        have h0 : fundsOfCategory (some { Name := TrimSpace x, FundHouses := [] }) = [] := by
          simp [fundsOfCategory]
        have h1 : fundsOfHouse none = [] := rfl
        simp only [pendingFunds, allFunds_append, h0, h1, List.append_nil]
        exact ((allFunds_emitCategory _).trans (fundsOfCategory_finalize _ _)).append_left _
      · rw [applyRecord_house st hb (by simpa using hc)]
        have h1 : fundsOfHouse (some { Name := TrimSpace x, Funds := [] }) = [] := rfl
        simp only [pendingFunds, h1, List.append_nil]
        exact (fundsOfCategory_finalize _ _).append_left _
  · by_cases h8 : (x :: y :: r).length = 8
    · rw [applyRecord_row st h8]
      have h8b : ((x :: y :: r).length == 8) = true := by simpa using h8
      simp only [h8b, if_true, pendingFunds]
      cases hfh : st.currentFundHouse with
      | none => simp [fundsOfHouse]
      | some fh => simp [fundsOfHouse]
    · rw [applyRecord_other st (by simp) h8]
      simp

theorem allFunds_sublist (recs : List (List String)) :
    allFunds (finish (recs.foldl applyRecord initState)) <+
      (recs.filter fun r => r.length == 8).map positionalCopy := by
  have h := foldl_sublist pendingFunds _ pendingFunds_step recs initState
  rw [flatMap_ite_singleton] at h
  have h0 : pendingFunds initState = [] := by
    simp [pendingFunds, initState, allFunds, fundsOfCategory, fundsOfHouse]
  rw [h0, List.nil_append] at h
  exact (allFunds_finish _).trans h

theorem names_emitCategory (cc : Option SchemeCategory) :
    (emitCategory cc).map (fun c => c.Name) <+ cc.toList.map fun c => c.Name := by
  cases cc with
  | none => simp [emitCategory]
  | some cat => by_cases h : cat.FundHouses.length > 0 <;> simp [emitCategory, h]

theorem names_finalize (cc : Option SchemeCategory) (cfh : Option FundHouse) :
    ((finalizeFundHouse cc cfh).toList.map fun c => c.Name) = cc.toList.map fun c => c.Name := by
  rw [finalizeFundHouse_eq]
  cases cc <;> simp

theorem categoryNames_finish (st : ParserState) :
    (finish st).map (fun c => c.Name) <+ pendingCategoryNames st := by
  rw [finish, List.map_append, pendingCategoryNames, ← names_finalize _ st.currentFundHouse]
  exact (names_emitCategory _).append_left _

theorem pendingCategoryNames_step (st : ParserState) (r : List String) :
    pendingCategoryNames (applyRecord st r) <+
      pendingCategoryNames st ++ (if isCategoryHeader r = true then [headerName r] else []) := by
  rcases r with _ | ⟨x, _ | ⟨y, r⟩⟩
  · simp [applyRecord]
  · by_cases hb : TrimSpace x = ""
    · simp [applyRecord_blank st hb]
    · by_cases hc : Contains x "Schemes" = true
      · rw [applyRecord_category st hc]
        have hh : isCategoryHeader [x] = true := hc
        simp only [hh, if_true, pendingCategoryNames, List.map_append, headerName,
          List.headD_cons, Option.toList_some, List.map_cons, List.map_nil, List.append_assoc]
        rw [← names_finalize st.currentCategory st.currentFundHouse]
        have := ((names_emitCategory
          (finalizeFundHouse st.currentCategory st.currentFundHouse)).append_left
            (st.categories.map fun c => c.Name)).append_right [TrimSpace x]
        simpa [List.append_assoc] using this
      · rw [applyRecord_house st hb (by simpa using hc)]
        simp only [pendingCategoryNames, names_finalize]
        exact List.sublist_append_left _ _
  · have hh : isCategoryHeader (x :: y :: r) = false := rfl
    simp only [hh, Bool.false_eq_true, if_false, List.append_nil]
    by_cases h8 : (x :: y :: r).length = 8
    · rw [applyRecord_row st h8]
      simp [pendingCategoryNames]
    · rw [applyRecord_other st (by simp) h8]

theorem categoryNames_sublist (recs : List (List String)) :
    (finish (recs.foldl applyRecord initState)).map (fun c => c.Name) <+
      (recs.filter isCategoryHeader).map headerName := by
  have h := foldl_sublist pendingCategoryNames _ pendingCategoryNames_step recs initState
  rw [flatMap_ite_singleton] at h
  have h0 : pendingCategoryNames initState = [] := by
    simp [pendingCategoryNames, initState]
  rw [h0, List.nil_append] at h
  exact (categoryNames_finish _).trans h

theorem allFundHouses_append (a b : List SchemeCategory) :
    allFundHouses (a ++ b) = allFundHouses a ++ allFundHouses b := by
  simp [allFundHouses]

theorem houseNames_emitCategory (cc : Option SchemeCategory) :
    (allFundHouses (emitCategory cc)).map (fun fh => fh.Name) <+ houseNamesOfCategory cc := by
  cases cc with
  | none => simp [emitCategory, allFundHouses]
  | some cat =>
    by_cases h : cat.FundHouses.length > 0 <;>
      simp [emitCategory, allFundHouses, houseNamesOfCategory, h]

theorem houseNames_finalize (cc : Option SchemeCategory) (cfh : Option FundHouse) :
    houseNamesOfCategory (finalizeFundHouse cc cfh) <+
      houseNamesOfCategory cc ++ (cfh.toList.map fun fh => fh.Name) := by
  rw [finalizeFundHouse_eq]
  cases cc with
  | none => simp [houseNamesOfCategory]
  | some cat =>
    cases cfh with
    | none => simp [houseNamesOfCategory, emitHouse]
    | some fh =>
      by_cases h : fh.Funds.length > 0 <;> simp [houseNamesOfCategory, emitHouse, h]

theorem houseNames_finish (st : ParserState) :
    (allFundHouses (finish st)).map (fun fh => fh.Name) <+ pendingHouseNames st := by
  rw [finish, allFundHouses_append, List.map_append, pendingHouseNames]
  exact ((houseNames_emitCategory _).trans (houseNames_finalize _ _)).append_left _

theorem pendingHouseNames_step (st : ParserState) (r : List String) :
    pendingHouseNames (applyRecord st r) <+
      pendingHouseNames st ++ (if isFundHouseHeader r = true then [headerName r] else []) := by
  rcases r with _ | ⟨x, _ | ⟨y, r⟩⟩
  · simp [applyRecord]
  · by_cases hb : TrimSpace x = ""
    · simp [applyRecord_blank st hb]
    · by_cases hc : Contains x "Schemes" = true
      · rw [applyRecord_category st hc]
        have hh : isFundHouseHeader [x] = false := by simp [isFundHouseHeader, hc]
        have h0 : houseNamesOfCategory (some { Name := TrimSpace x, FundHouses := [] }) = [] :=
          rfl
        simp only [hh, Bool.false_eq_true, if_false, List.append_nil, pendingHouseNames,
          allFundHouses_append, List.map_append, h0, Option.toList_none, List.map_nil]
        exact ((houseNames_emitCategory _).trans (houseNames_finalize _ _)).append_left _
      · rw [applyRecord_house st hb (by simpa using hc)]
        have hh : isFundHouseHeader [x] = true := by simp [isFundHouseHeader, hc, hb]
        simp only [hh, if_true, pendingHouseNames, headerName, List.headD_cons,
          Option.toList_some, List.map_cons, List.map_nil, List.append_assoc]
        have := ((houseNames_finalize st.currentCategory st.currentFundHouse).append_left
          ((allFundHouses st.categories).map fun fh => fh.Name)).append_right [TrimSpace x]
        simpa [List.append_assoc] using this
  · have hh : isFundHouseHeader (x :: y :: r) = false := rfl
    simp only [hh, Bool.false_eq_true, if_false, List.append_nil]
    by_cases h8 : (x :: y :: r).length = 8
    · rw [applyRecord_row st h8]
      cases hfh : st.currentFundHouse <;> simp [pendingHouseNames, hfh]
    · rw [applyRecord_other st (by simp) h8]

theorem houseNames_sublist (recs : List (List String)) :
    (allFundHouses (finish (recs.foldl applyRecord initState))).map (fun fh => fh.Name) <+
      (recs.filter isFundHouseHeader).map headerName := by
  have h := foldl_sublist pendingHouseNames _ pendingHouseNames_step recs initState
  rw [flatMap_ite_singleton] at h
  have h0 : pendingHouseNames initState = [] := by
    simp [pendingHouseNames, initState, allFundHouses, houseNamesOfCategory]
  rw [h0, List.nil_append] at h
  exact (houseNames_finish _).trans h

/-! ## The cursors after a prefix of the input -/

theorem isCategoryHeader_of_house {r : List String} (h : isFundHouseHeader r = true) :
    isCategoryHeader r = false := by
  rcases r with _ | ⟨x, _ | ⟨y, r⟩⟩
  · rfl
  · simp only [isFundHouseHeader, Bool.and_eq_true, Bool.not_eq_true'] at h
    exact h.2
  · rfl

theorem applyRecord_nonheader (st : ParserState) {r : List String}
    (h1 : isCategoryHeader r = false) (h2 : isFundHouseHeader r = false) :
    applyRecord st r = st ∨
      (r.length = 8 ∧ applyRecord st r =
        { st with currentFundHouse :=
            st.currentFundHouse.map fun fh =>
              { fh with Funds := fh.Funds ++ [positionalCopy r] } }) := by
  rcases r with _ | ⟨x, _ | ⟨y, r⟩⟩
  · exact Or.inl (applyRecord_other st (by simp) (by simp))
  · left
    by_cases hb : TrimSpace x = ""
    · exact applyRecord_blank st hb
    · have h1' : Contains x "Schemes" = false := h1
      simp [isFundHouseHeader, hb, h1'] at h2
  · by_cases h8 : (x :: y :: r).length = 8
    · exact Or.inr ⟨h8, applyRecord_row st h8⟩
    · exact Or.inl (applyRecord_other st (by simp) h8)

theorem categoryName_step (st : ParserState) {r : List String}
    (h1 : isCategoryHeader r = false) :
    (applyRecord st r).currentCategory.map (fun c => c.Name) =
      st.currentCategory.map fun c => c.Name := by
  by_cases h2 : isFundHouseHeader r = true
  · rcases r with _ | ⟨x, _ | ⟨y, r⟩⟩
    · simp [isFundHouseHeader] at h2
    · simp only [isFundHouseHeader, Bool.and_eq_true, bne_iff_ne, ne_eq,
        Bool.not_eq_true'] at h2
      rw [applyRecord_house st h2.1 h2.2, finalizeFundHouse_eq]
      cases st.currentCategory <;> simp
    · simp [isFundHouseHeader] at h2
  · rcases applyRecord_nonheader st h1 (by simpa using h2) with h | ⟨_, h⟩ <;> rw [h]

theorem categoryName_foldl (recs : List (List String)) (st : ParserState)
    (h : ∀ x ∈ recs, isCategoryHeader x = false) :
    (recs.foldl applyRecord st).currentCategory.map (fun c => c.Name) =
      st.currentCategory.map fun c => c.Name := by
  induction recs generalizing st with
  | nil => rfl
  | cons r recs ih =>
    rw [List.foldl_cons, ih _ (fun x hx => h x (by simp [hx])),
      categoryName_step st (h r (by simp))]

theorem houseName_step (st : ParserState) {r : List String}
    (h1 : isCategoryHeader r = false) (h2 : isFundHouseHeader r = false) :
    (applyRecord st r).currentFundHouse.map (fun fh => fh.Name) =
      st.currentFundHouse.map fun fh => fh.Name := by
  rcases applyRecord_nonheader st h1 h2 with h | ⟨_, h⟩ <;> rw [h]
  cases st.currentFundHouse <;> simp

theorem houseName_foldl (recs : List (List String)) (st : ParserState)
    (h : ∀ x ∈ recs, isCategoryHeader x = false ∧ isFundHouseHeader x = false) :
    (recs.foldl applyRecord st).currentFundHouse.map (fun fh => fh.Name) =
      st.currentFundHouse.map fun fh => fh.Name := by
  induction recs generalizing st with
  | nil => rfl
  | cons r recs ih =>
    rw [List.foldl_cons, ih _ (fun x hx => h x (by simp [hx])),
      houseName_step st (h r (by simp)).1 (h r (by simp)).2]

theorem categoryName_of_header (st : ParserState) {c : List String}
    (hc : isCategoryHeader c = true) :
    (applyRecord st c).currentCategory.map (fun c => c.Name) = some (headerName c) := by
  rcases c with _ | ⟨x, _ | ⟨y, r⟩⟩
  · simp [isCategoryHeader] at hc
  · have hx : Contains x "Schemes" = true := hc
    rw [applyRecord_category st hx]
    simp [headerName]
  · simp [isCategoryHeader] at hc

theorem houseName_of_header (st : ParserState) {f : List String}
    (hf : isFundHouseHeader f = true) :
    (applyRecord st f).currentFundHouse.map (fun fh => fh.Name) = some (headerName f) := by
  rcases f with _ | ⟨x, _ | ⟨y, r⟩⟩
  · simp [isFundHouseHeader] at hf
  · simp only [isFundHouseHeader, Bool.and_eq_true, bne_iff_ne, ne_eq,
      Bool.not_eq_true'] at hf
    rw [applyRecord_house st hf.1 hf.2]
    simp [headerName]
  · simp [isFundHouseHeader] at hf

theorem applyRecord_house_twice (st : ParserState) {h1 h2 : List String}
    (hh1 : isFundHouseHeader h1 = true) (hh2 : isFundHouseHeader h2 = true) :
    applyRecord (applyRecord st h1) h2 = applyRecord st h2 := by
  rcases h1 with _ | ⟨x, _ | ⟨x', r⟩⟩
  · simp [isFundHouseHeader] at hh1
  · rcases h2 with _ | ⟨y, _ | ⟨y', r⟩⟩
    · simp [isFundHouseHeader] at hh2
    · simp only [isFundHouseHeader, Bool.and_eq_true, bne_iff_ne, ne_eq,
        Bool.not_eq_true'] at hh1 hh2
      rw [applyRecord_house _ hh2.1 hh2.2, applyRecord_house _ hh2.1 hh2.2,
        applyRecord_house _ hh1.1 hh1.2]
      simp [finalizeFundHouse]
    · simp [isFundHouseHeader] at hh2
  · simp [isFundHouseHeader] at hh1

theorem applyRecord_isBlank (st : ParserState) {b : List String} (hb : isBlank b = true) :
    applyRecord st b = st := by
  rcases b with _ | ⟨x, _ | ⟨y, r⟩⟩
  · simp [isBlank] at hb
  · exact applyRecord_blank st (by simpa [isBlank] using hb)
  · simp [isBlank] at hb

theorem categories_step (st : ParserState) {r : List String}
    (h1 : isCategoryHeader r = false) :
    (applyRecord st r).categories = st.categories := by
  by_cases h2 : isFundHouseHeader r = true
  · rcases r with _ | ⟨x, _ | ⟨y, r⟩⟩
    · simp [isFundHouseHeader] at h2
    · simp only [isFundHouseHeader, Bool.and_eq_true, bne_iff_ne, ne_eq,
        Bool.not_eq_true'] at h2
      rw [applyRecord_house st h2.1 h2.2]
    · simp [isFundHouseHeader] at h2
  · rcases applyRecord_nonheader st h1 (by simpa using h2) with h | ⟨_, h⟩ <;> rw [h]

theorem categories_foldl (recs : List (List String)) (st : ParserState)
    (h : ∀ x ∈ recs, isCategoryHeader x = false) :
    (recs.foldl applyRecord st).categories = st.categories := by
  induction recs generalizing st with
  | nil => rfl
  | cons r recs ih =>
    rw [List.foldl_cons, ih _ (fun x hx => h x (by simp [hx])),
      categories_step st (h r (by simp))]

theorem Sim_refl (s : ParserState) : Sim s s := ⟨rfl, rfl, Or.inr rfl⟩

theorem Sim_applyRecord {s t : ParserState} (h : Sim s t) (r : List String) :
    Sim (applyRecord s r) (applyRecord t r) := by
  obtain ⟨cats, cc, cfh⟩ := s
  obtain ⟨cats', cc', cfh'⟩ := t
  obtain ⟨h1, h2, h3⟩ := h
  simp only at h1 h2 h3
  subst h1 h2
  rcases h3 with h3 | h3
  · subst h3
    rcases r with _ | ⟨x, _ | ⟨y, r⟩⟩
    · simp [applyRecord, Sim]
    · by_cases hb : TrimSpace x = ""
      · simp [applyRecord_blank _ hb, Sim]
      · by_cases hc : Contains x "Schemes" = true
        · rw [applyRecord_category _ hc, applyRecord_category _ hc]
          simp [Sim, finalizeFundHouse_eq]
        · rw [applyRecord_house _ hb (by simpa using hc),
            applyRecord_house _ hb (by simpa using hc)]
          simp [Sim, finalizeFundHouse_eq]
    · by_cases h8 : (x :: y :: r).length = 8
      · rw [applyRecord_row _ h8, applyRecord_row _ h8]
        simp [Sim]
      · rw [applyRecord_other _ (by simp) h8, applyRecord_other _ (by simp) h8]
        simp [Sim]
  · subst h3
    exact Sim_refl _

theorem Sim_foldl (recs : List (List String)) {s t : ParserState} (h : Sim s t) :
    Sim (recs.foldl applyRecord s) (recs.foldl applyRecord t) := by
  induction recs generalizing s t with
  | nil => exact h
  | cons r recs ih => exact ih (Sim_applyRecord h r)

theorem Sim_finish {s t : ParserState} (h : Sim s t) : finish s = finish t := by
  obtain ⟨cats, cc, cfh⟩ := s
  obtain ⟨cats', cc', cfh'⟩ := t
  obtain ⟨h1, h2, h3⟩ := h
  simp only at h1 h2 h3
  subst h1 h2
  rcases h3 with h3 | h3
  · subst h3
    simp [finish, finalizeFundHouse_eq]
  · subst h3
    rfl

theorem Sim_of_no_category (pre : List (List String))
    (h : ∀ x ∈ pre, isCategoryHeader x = false) :
    Sim (pre.foldl applyRecord initState) initState := by
  have h1 := categories_foldl pre initState h
  have h2 := categoryName_foldl pre initState h
  have h3 : (pre.foldl applyRecord initState).currentCategory = none := by
    simpa [initState] using h2
  exact ⟨h1, h3, Or.inl h3⟩

theorem house_none_of_no_header (recs : List (List String)) (st : ParserState)
    (hst : st.currentFundHouse = none)
    (h : ∀ x ∈ recs, isCategoryHeader x = false ∧ isFundHouseHeader x = false) :
    (recs.foldl applyRecord st).currentFundHouse = none := by
  have := houseName_foldl recs st h
  simpa [hst] using this

theorem house_none_after_header (st : ParserState) {c : List String}
    (hc : isCategoryHeader c = true) : (applyRecord st c).currentFundHouse = none := by
  rcases c with _ | ⟨x, _ | ⟨y, r⟩⟩
  · simp [isCategoryHeader] at hc
  · have hx : Contains x "Schemes" = true := hc
    rw [applyRecord_category st hx]
  · simp [isCategoryHeader] at hc

theorem applyRecord_row_dropped (st : ParserState) {r : List String} (hr : r.length = 8)
    (hst : st.currentFundHouse = none) : applyRecord st r = st := by
  rw [applyRecord_row st hr, hst]
  obtain ⟨cats, cc, cfh⟩ := st
  simp only at hst
  subst hst
  rfl

/-! ## The loop on a source that fails -/

theorem readLoop_append (pre : List (List String)) (tail : List ReadEvent) (st : ParserState) :
    readLoop (delivered pre ++ tail) st = readLoop tail (pre.foldl applyRecord st) := by
  induction pre generalizing st with
  | nil => simp [delivered]
  | cons r pre ih =>
    have := ih (applyRecord st r)
    simp only [delivered, List.map_cons, List.cons_append, List.foldl_cons] at this ⊢
    rw [readLoop_record, this]

/-! ## Trimming does not change whether a text contains a word without white space -/

theorem infix_dropWhile_isSpace {sub : List Char} (hsub : ∀ c ∈ sub, isSpace c = false)
    (hne : sub ≠ []) {l : List Char} (h : sub <:+: l) : sub <:+: l.dropWhile isSpace := by
  induction l with
  | nil => simpa using h
  | cons a l ih =>
    by_cases ha : isSpace a = true
    · rw [List.dropWhile_cons_of_pos ha]
      rcases List.infix_cons_iff.mp h with hp | hi
      · exfalso
        cases sub with
        | nil => exact hne rfl
        | cons s0 sub =>
          have h0 : s0 = a := by
            obtain ⟨t, ht⟩ := hp
            simp only [List.cons_append, List.cons.injEq] at ht
            exact ht.1
          have := hsub s0 (by simp)
          rw [h0, ha] at this
          exact Bool.noConfusion this
      · exact ih hi
    · rw [List.dropWhile_cons_of_neg ha]
      exact h

theorem infix_trim_iff {sub : List Char} (hsub : ∀ c ∈ sub, isSpace c = false)
    (hne : sub ≠ []) (l : List Char) :
    sub <:+: ((l.dropWhile isSpace).reverse.dropWhile isSpace).reverse ↔ sub <:+: l := by
  constructor
  · intro h
    have h1 : ((l.dropWhile isSpace).reverse.dropWhile isSpace).reverse <:+:
        l.dropWhile isSpace := by
      have : (l.dropWhile isSpace).reverse.dropWhile isSpace <:+:
          (l.dropWhile isSpace).reverse := (List.dropWhile_suffix isSpace).isInfix
      simpa using List.reverse_infix.mpr this
    exact h.trans (h1.trans (List.dropWhile_suffix isSpace).isInfix)
  · intro h
    have h1 := infix_dropWhile_isSpace hsub hne h
    have h2 : sub.reverse <:+: (l.dropWhile isSpace).reverse := List.reverse_infix.mpr h1
    have h3 : sub.reverse <:+: (l.dropWhile isSpace).reverse.dropWhile isSpace :=
      infix_dropWhile_isSpace (fun c hc => hsub c (List.mem_reverse.mp hc))
        (by simpa using hne) h2
    simpa using List.reverse_infix.mpr h3

theorem Contains_TrimSpace (s : String) :
    Contains (TrimSpace s) "Schemes" = Contains s "Schemes" := by
  have hiff : Contains (TrimSpace s) "Schemes" = true ↔ Contains s "Schemes" = true := by
    rw [Contains, Contains, containsChars_iff, containsChars_iff]
    exact infix_trim_iff (by decide) (by decide) s.data
  cases h1 : Contains (TrimSpace s) "Schemes" <;> cases h2 : Contains s "Schemes" <;>
    simp_all

/-! ## The emitted names -/

theorem head?_dropWhile_isSpace {l : List Char} {c : Char}
    (h : (l.dropWhile isSpace).head? = some c) : isSpace c = false := by
  have := List.head?_dropWhile_not isSpace l
  rw [h] at this
  exact this

theorem getLast?_of_dropWhile {l : List Char} {c : Char}
    (h : (l.dropWhile isSpace).getLast? = some c) : l.getLast? = some c := by
  have hsuf : l.dropWhile isSpace <:+ l := List.dropWhile_suffix isSpace
  obtain ⟨t, ht⟩ := hsuf
  rw [← ht, List.getLast?_append, h]
  rfl

theorem noEdgeSpace_TrimSpace (x : String) : noEdgeSpace (TrimSpace x) = true := by
  unfold noEdgeSpace TrimSpace
  simp only [List.head?_reverse, List.getLast?_reverse, Bool.and_eq_true]
  constructor
  · cases h : ((x.data.dropWhile isSpace).reverse.dropWhile isSpace).getLast? with
    | none => rfl
    | some c =>
      have h1 := getLast?_of_dropWhile h
      rw [List.getLast?_reverse] at h1
      simp [head?_dropWhile_isSpace h1]
  · cases h : ((x.data.dropWhile isSpace).reverse.dropWhile isSpace).head? with
    | none => rfl
    | some c => simp [head?_dropWhile_isSpace h]

theorem categoryHeaderName_props {n : String} {recs : List (List String)}
    (h : n ∈ (recs.filter isCategoryHeader).map headerName) :
    Contains n "Schemes" = true ∧ noEdgeSpace n = true := by
  obtain ⟨r, hr, rfl⟩ := List.mem_map.mp h
  have hr2 := (List.mem_filter.mp hr).2
  rcases r with _ | ⟨x, _ | ⟨y, r⟩⟩
  · simp [isCategoryHeader] at hr2
  · have hx : Contains x "Schemes" = true := hr2
    exact ⟨by simpa [headerName, Contains_TrimSpace] using hx, noEdgeSpace_TrimSpace x⟩
  · simp [isCategoryHeader] at hr2

theorem houseHeaderName_props {n : String} {recs : List (List String)}
    (h : n ∈ (recs.filter isFundHouseHeader).map headerName) :
    n ≠ "" ∧ Contains n "Schemes" = false ∧ noEdgeSpace n = true := by
  obtain ⟨r, hr, rfl⟩ := List.mem_map.mp h
  have hr2 := (List.mem_filter.mp hr).2
  rcases r with _ | ⟨x, _ | ⟨y, r⟩⟩
  · simp [isFundHouseHeader] at hr2
  · simp only [isFundHouseHeader, Bool.and_eq_true, bne_iff_ne, ne_eq,
      Bool.not_eq_true'] at hr2
    exact ⟨by simpa [headerName] using hr2.1,
      by simpa [headerName, Contains_TrimSpace] using hr2.2, noEdgeSpace_TrimSpace x⟩
  · simp [isFundHouseHeader] at hr2

theorem mem_allFundHouses {cats : List SchemeCategory} {c : SchemeCategory} {fh : FundHouse}
    (hc : c ∈ cats) (hfh : fh ∈ c.FundHouses) : fh ∈ allFundHouses cats := by
  simp only [allFundHouses, List.mem_flatMap]
  exact ⟨c, hc, hfh⟩

/-! ## Categories finalized earlier are carried along unchanged -/

theorem applyRecord_withPrefix (p : List SchemeCategory) (st : ParserState) (r : List String) :
    applyRecord (withPrefix p st) r = withPrefix p (applyRecord st r) := by
  rcases r with _ | ⟨x, _ | ⟨y, r⟩⟩
  · simp [applyRecord, withPrefix]
  · by_cases hb : TrimSpace x = ""
    · simp [applyRecord_blank _ hb]
    · by_cases hc : Contains x "Schemes" = true
      · rw [applyRecord_category _ hc, applyRecord_category _ hc]
        simp [withPrefix, List.append_assoc]
      · rw [applyRecord_house _ hb (by simpa using hc),
          applyRecord_house _ hb (by simpa using hc)]
        simp [withPrefix]
  · by_cases h8 : (x :: y :: r).length = 8
    · rw [applyRecord_row _ h8, applyRecord_row _ h8]
      simp [withPrefix]
    · rw [applyRecord_other _ (by simp) h8, applyRecord_other _ (by simp) h8]

theorem foldl_withPrefix (p : List SchemeCategory) (recs : List (List String))
    (st : ParserState) :
    recs.foldl applyRecord (withPrefix p st) = withPrefix p (recs.foldl applyRecord st) := by
  induction recs generalizing st with
  | nil => rfl
  | cons r recs ih => rw [List.foldl_cons, List.foldl_cons, applyRecord_withPrefix, ih]

theorem finish_withPrefix (p : List SchemeCategory) (st : ParserState) :
    finish (withPrefix p st) = p ++ finish st := by
  simp [finish, withPrefix, List.append_assoc]

theorem applyRecord_header_eq (st : ParserState) {c : List String}
    (hc : isCategoryHeader c = true) :
    applyRecord st c = withPrefix (finish st) (applyRecord initState c) := by
  rcases c with _ | ⟨x, _ | ⟨y, r⟩⟩
  · simp [isCategoryHeader] at hc
  · have hx : Contains x "Schemes" = true := hc
    rw [applyRecord_category _ hx, applyRecord_category _ hx]
    simp [withPrefix, finish, initState, finalizeFundHouse, emitCategory]
  · simp [isCategoryHeader] at hc

/-! ## Round trip -/

theorem dropWhile_of_head {l : List Char} (h : ∀ c, l.head? = some c → isSpace c = false) :
    l.dropWhile isSpace = l := by
  cases l with
  | nil => rfl
  | cons a t =>
    have ha : ¬ isSpace a = true := by simp [h a rfl]
    exact List.dropWhile_cons_of_neg ha

theorem TrimSpace_of_noEdgeSpace {s : String} (h : noEdgeSpace s = true) : TrimSpace s = s := by
  simp only [noEdgeSpace, Bool.and_eq_true] at h
  obtain ⟨h1, h2⟩ := h
  have e1 : s.data.dropWhile isSpace = s.data := by
    apply dropWhile_of_head
    intro c hc
    rw [hc] at h1
    simpa using h1
  have e2 : s.data.reverse.dropWhile isSpace = s.data.reverse := by
    apply dropWhile_of_head
    intro c hc
    rw [List.head?_reverse] at hc
    rw [hc] at h2
    simpa using h2
  rw [String.ext_iff]
  simp [TrimSpace, e1, e2]

theorem positionalCopy_recordOfFund (f : MutualFund) : positionalCopy (recordOfFund f) = f := by
  cases f
  rfl

theorem foldl_house (st : ParserState) {h : FundHouse} (hw : WellFormedHouse h) :
    (flattenHouse h).foldl applyRecord st =
      { categories := st.categories,
        currentCategory := finalizeFundHouse st.currentCategory st.currentFundHouse,
        currentFundHouse := some h } := by
  obtain ⟨_, htrim, hne, hnc⟩ := hw
  have ht := TrimSpace_of_noEdgeSpace htrim
  rw [flattenHouse, List.foldl_cons, applyRecord_house st (by rw [ht]; exact hne) hnc,
    foldl_rows _ (by simp [recordOfFund]), ht]
  have : (fun x => positionalCopy (recordOfFund x)) = id :=
    funext positionalCopy_recordOfFund
  simp [List.map_map, Function.comp_def, this]

theorem foldl_houses (hs : List FundHouse) (hw : ∀ h ∈ hs, WellFormedHouse h)
    (st : ParserState) :
    ((hs.flatMap flattenHouse).foldl applyRecord st).categories = st.categories ∧
    finalizeFundHouse ((hs.flatMap flattenHouse).foldl applyRecord st).currentCategory
        ((hs.flatMap flattenHouse).foldl applyRecord st).currentFundHouse =
      (finalizeFundHouse st.currentCategory st.currentFundHouse).map fun c =>
        { c with FundHouses := c.FundHouses ++ hs } := by
  induction hs generalizing st with
  | nil =>
    refine ⟨rfl, ?_⟩
    simp only [List.flatMap_nil, List.foldl_nil]
    generalize finalizeFundHouse st.currentCategory st.currentFundHouse = o
    cases o <;> simp
  | cons h hs ih =>
    have hwh := hw h (by simp)
    have hwt : ∀ x ∈ hs, WellFormedHouse x := fun x hx => hw x (by simp [hx])
    rw [List.flatMap_cons, List.foldl_append, foldl_house st hwh]
    obtain ⟨ih1, ih2⟩ := ih hwt
      { categories := st.categories,
        currentCategory := finalizeFundHouse st.currentCategory st.currentFundHouse,
        currentFundHouse := some h }
    refine ⟨ih1, ?_⟩
    rw [ih2]
    have hpos : h.Funds.length > 0 := hwh.1
    generalize finalizeFundHouse st.currentCategory st.currentFundHouse = o
    cases o <;> simp [finalizeFundHouse, hpos]

theorem finish_category (st : ParserState) {c : SchemeCategory} (hw : WellFormedCategory c) :
    finish ((flattenCategory c).foldl applyRecord st) = finish st ++ [c] := by
  obtain ⟨hpos, htrim, hc, hhs⟩ := hw
  have ht := TrimSpace_of_noEdgeSpace htrim
  rw [flattenCategory, List.foldl_cons, applyRecord_category st hc, ht]
  obtain ⟨h1, h2⟩ := foldl_houses c.FundHouses hhs
    { categories :=
        st.categories ++ emitCategory (finalizeFundHouse st.currentCategory st.currentFundHouse),
      currentCategory := some { Name := c.Name, FundHouses := [] },
      currentFundHouse := none }
  rw [finish, h1, h2]
  have hpos' : c.FundHouses.length > 0 := hpos
  simp [finish, finalizeFundHouse, emitCategory, hpos']

theorem finish_tree (cats : List SchemeCategory) (hw : WellFormedTree cats)
    (st : ParserState) :
    finish ((flattenTree cats).foldl applyRecord st) = finish st ++ cats := by
  induction cats generalizing st with
  | nil => simp [flattenTree]
  | cons c cats ih =>
    have hwc := hw c (by simp)
    have hwt : WellFormedTree cats := fun x hx => hw x (by simp [hx])
    have := ih hwt ((flattenCategory c).foldl applyRecord st)
    simp only [flattenTree, List.flatMap_cons, List.foldl_append] at this ⊢
    rw [this, finish_category st hwc]
    simp

/-! ## Exact retention of rows -/

theorem sinceLastCategory_cons (a : List String) (rest : List (List String)) :
    sinceLastCategory (a :: rest) =
      match sinceLastCategory rest with
      | some tail => some tail
      | none => if isCategoryHeader a = true then some rest else none := rfl

theorem sinceLastCategory_snoc (pre : List (List String)) (r : List String) :
    sinceLastCategory (pre ++ [r]) =
      if isCategoryHeader r = true then some []
      else (sinceLastCategory pre).map fun t => t ++ [r] := by
  induction pre with
  | nil => by_cases h : isCategoryHeader r = true <;> simp [sinceLastCategory, h]
  | cons a pre ih =>
    rw [List.cons_append, sinceLastCategory_cons, sinceLastCategory_cons, ih]
    by_cases h : isCategoryHeader r = true
    · simp [h]
    · simp only [h, if_false]
      cases sinceLastCategory pre with
      | some t => simp
      | none => by_cases ha : isCategoryHeader a = true <;> simp [ha]

theorem fundsOfCategory_finalize_some (cat : SchemeCategory) (cfh : Option FundHouse) :
    fundsOfCategory (finalizeFundHouse (some cat) cfh) =
      fundsOfCategory (some cat) ++ fundsOfHouse cfh := by
  rw [finalizeFundHouse_eq]
  cases cfh with
  | none => simp [fundsOfCategory, fundsOfHouse, emitHouse]
  | some fh =>
    by_cases h : fh.Funds.length > 0
    · simp [fundsOfCategory, fundsOfHouse, emitHouse, h]
    · have h0 : fh.Funds = [] := by
        cases hf : fh.Funds with
        | nil => rfl
        | cons a t => simp [hf] at h
      simp [fundsOfCategory, fundsOfHouse, emitHouse, h0]

theorem allFunds_emitCategory_eq (cc : Option SchemeCategory) :
    allFunds (emitCategory cc) = fundsOfCategory cc := by
  cases cc with
  | none => simp [emitCategory, allFunds, fundsOfCategory]
  | some cat =>
    by_cases h : cat.FundHouses.length > 0
    · simp [emitCategory, allFunds, fundsOfCategory, h]
    · have h0 : cat.FundHouses = [] := by
        cases hf : cat.FundHouses with
        | nil => rfl
        | cons a t => simp [hf] at h
      simp [emitCategory, allFunds, fundsOfCategory, h0]

theorem allFunds_emit_finalize (cc : Option SchemeCategory) (cfh : Option FundHouse) :
    allFunds (emitCategory (finalizeFundHouse cc cfh)) =
      if cc.isSome then fundsOfCategory cc ++ fundsOfHouse cfh else [] := by
  rw [allFunds_emitCategory_eq]
  cases cc with
  | none => simp [finalizeFundHouse_eq, fundsOfCategory]
  | some cat => simp [fundsOfCategory_finalize_some]

theorem allFunds_finish_eq (st : ParserState) : allFunds (finish st) = liveFunds st := by
  rw [finish, allFunds_append, allFunds_emit_finalize, liveFunds]

theorem liveFunds_step (st : ParserState) (r : List String) :
    liveFunds (applyRecord st r) =
      liveFunds st ++
        (if (r.length == 8 && (st.currentCategory.isSome && st.currentFundHouse.isSome)) = true
          then [positionalCopy r] else []) := by
  rcases r with _ | ⟨x, _ | ⟨y, r⟩⟩
  · simp [applyRecord]
  · have hlen : (([x] : List String).length == 8) = false := rfl
    simp only [hlen, Bool.false_and, Bool.false_eq_true, if_false, List.append_nil]
    by_cases hb : TrimSpace x = ""
    · rw [applyRecord_blank st hb]
    · by_cases hc : Contains x "Schemes" = true
      · rw [applyRecord_category st hc]
        simp only [liveFunds, allFunds_append, allFunds_emit_finalize]
        simp [fundsOfCategory, fundsOfHouse]
      · rw [applyRecord_house st hb (by simpa using hc)]
        simp only [liveFunds]
        cases hcc : st.currentCategory with
        | none => simp [finalizeFundHouse_eq]
        | some cat =>
          rw [fundsOfCategory_finalize_some]
          have hs : (finalizeFundHouse (some cat) st.currentFundHouse).isSome = true := by
            simp [finalizeFundHouse_eq]
          simp [hs, fundsOfHouse]
  · by_cases h8 : (x :: y :: r).length = 8
    · rw [applyRecord_row st h8]
      have h8b : ((x :: y :: r).length == 8) = true := by simpa using h8
      simp only [h8b, Bool.true_and, liveFunds]
      cases hcc : st.currentCategory with
      | none => simp
      | some cat =>
        cases hfh : st.currentFundHouse with
        | none => simp [fundsOfHouse]
        | some fh => simp [fundsOfHouse]
    · rw [applyRecord_other st (by simp) h8]
      have h8b : ((x :: y :: r).length == 8) = false := by simpa using h8
      simp only [h8b, Bool.false_and, Bool.false_eq_true, if_false, List.append_nil]

theorem Tracks_init : Tracks [] initState :=
  ⟨rfl, rfl⟩

theorem bothOpen_snoc (pre : List (List String)) (r : List String) :
    bothOpen (pre ++ [r]) =
      if isCategoryHeader r = true then false
      else if isFundHouseHeader r = true then (sinceLastCategory pre).isSome
      else bothOpen pre := by
  unfold bothOpen
  rw [sinceLastCategory_snoc]
  by_cases hc : isCategoryHeader r = true
  · simp [hc]
  · simp only [hc, if_false]
    cases sinceLastCategory pre with
    | none => simp
    | some t => by_cases hf : isFundHouseHeader r = true <;> simp [hf]

theorem isSome_finalize (cc : Option SchemeCategory) (cfh : Option FundHouse) :
    (finalizeFundHouse cc cfh).isSome = cc.isSome := by
  rw [finalizeFundHouse_eq]
  cases cc <;> rfl

theorem Tracks_step {pre : List (List String)} {st : ParserState} (h : Tracks pre st)
    (r : List String) : Tracks (pre ++ [r]) (applyRecord st r) := by
  obtain ⟨hA, hB⟩ := h
  by_cases hc : isCategoryHeader r = true
  · have hf := house_none_after_header st hc
    have hn := categoryName_of_header st hc
    have hs : (applyRecord st r).currentCategory.isSome = true := by
      cases hcc : (applyRecord st r).currentCategory with
      | none => simp [hcc] at hn
      | some c => rfl
    constructor
    · rw [sinceLastCategory_snoc, hs]
      simp [hc]
    · rw [bothOpen_snoc, hf]
      simp [hc]
  · have hc' : isCategoryHeader r = false := by simpa using hc
    have hcat : (applyRecord st r).currentCategory.isSome = st.currentCategory.isSome := by
      have := categoryName_step st hc'
      cases h1 : (applyRecord st r).currentCategory <;> cases h2 : st.currentCategory <;>
        simp [h1, h2] at this ⊢
    constructor
    · rw [sinceLastCategory_snoc, hcat, hA]
      simp only [hc, if_false]
      cases sinceLastCategory pre <;> rfl
    · rw [bothOpen_snoc, hcat]
      simp only [hc, if_false]
      by_cases hf : isFundHouseHeader r = true
      · have hn := houseName_of_header st hf
        have hs : (applyRecord st r).currentFundHouse.isSome = true := by
          cases hh : (applyRecord st r).currentFundHouse with
          | none => simp [hh] at hn
          | some c => rfl
        simp [hf, hs, hA]
      · have hf' : isFundHouseHeader r = false := by simpa using hf
        have hh : (applyRecord st r).currentFundHouse.isSome = st.currentFundHouse.isSome := by
          have := houseName_step st hc' hf'
          cases h1 : (applyRecord st r).currentFundHouse <;>
            cases h2 : st.currentFundHouse <;> simp [h1, h2] at this ⊢
        simp only [hf, if_false, hh]
        exact hB

theorem liveFunds_foldl (recs : List (List String)) (pre : List (List String))
    (st : ParserState) (h : Tracks pre st) :
    liveFunds (recs.foldl applyRecord st) =
      liveFunds st ++ (retainedFrom pre recs).map positionalCopy := by
  induction recs generalizing pre st with
  | nil => simp [retainedFrom]
  | cons r recs ih =>
    rw [List.foldl_cons, ih (pre ++ [r]) _ (Tracks_step h r), liveFunds_step, h.both,
      retainedFrom]
    by_cases hk : (r.length == 8 && bothOpen pre) = true <;> simp [hk]

theorem allFunds_retained (recs : List (List String)) :
    allFunds (finish (recs.foldl applyRecord initState)) =
      (retainedRows recs).map positionalCopy := by
  rw [allFunds_finish_eq, liveFunds_foldl recs [] initState Tracks_init, retainedRows]
  simp [liveFunds, initState, allFunds]

/-! ## The claims -/

/-- C1: for every finite sequence of records that ends normally, `readCSV`
returns (without error) a list of categories in which every fund house of every
category has at least one fund entry. -/
theorem C1_every_fund_house_has_entries (recs : List (List String)) :
    ∃ cats, readCSV (delivered recs) = some (cats, none) ∧
      ∀ c ∈ cats, ∀ fh ∈ c.FundHouses, 0 < fh.Funds.length :=
  ⟨_, readCSV_delivered recs, fun c hc => (finish_filled recs c hc).2⟩

/-- C2: for every finite sequence of records that ends normally, `readCSV`
returns (without error) a list of categories each of which has at least one
fund house. -/
theorem C2_every_category_has_fund_houses (recs : List (List String)) :
    ∃ cats, readCSV (delivered recs) = some (cats, none) ∧
      ∀ c ∈ cats, 0 < c.FundHouses.length :=
  ⟨_, readCSV_delivered recs, fun c hc => (finish_filled recs c hc).1⟩

/-- C3: a category header `c`, a fund-house header `f` and a non-empty list of
8-field records `r :: rows` yield exactly one category named `TrimSpace c` with
exactly one fund house named `TrimSpace f` whose entries are the positional
copies of the rows, in order. -/
theorem C3_one_category_one_house (c f : String) (r : List String) (rows : List (List String))
    (hc : Contains c "Schemes" = true)
    (hfb : TrimSpace f ≠ "") (hfc : Contains f "Schemes" = false)
    (hrows : ∀ x ∈ r :: rows, x.length = 8) :
    readCSV (delivered ([c] :: [f] :: r :: rows)) =
      some ([{ Name := TrimSpace c,
               FundHouses := [{ Name := TrimSpace f,
                                Funds := (r :: rows).map positionalCopy }] }], none) := by
  rw [readCSV_delivered]
  simp only [List.foldl_cons, initState]
  rw [applyRecord_category _ hc, applyRecord_house _ hfb hfc]
  simp only [finalizeFundHouse, emitCategory, List.append_nil]
  have := foldl_rows (r :: rows) hrows [] (some { Name := TrimSpace c, FundHouses := [] })
    (TrimSpace f) []
  simp only [List.foldl_cons] at this
  rw [this]
  simp [finish, finalizeFundHouse, emitCategory]

/-- Scenario A of the specification, as an instance of C3. -/
theorem C3_scenario_A :
    Contains "Open Ended Schemes" "Schemes" = true ∧
    TrimSpace "ABC Mutual Fund" ≠ "" ∧ Contains "ABC Mutual Fund" "Schemes" = false ∧
    (∀ x ∈ [["101", "Scheme One", "ISIN1", "ISIN2", "10.50", "10.40", "10.60", "01-Jan-2024"]],
      x.length = 8) ∧
    readCSV (delivered [["Open Ended Schemes"], ["ABC Mutual Fund"],
        ["101", "Scheme One", "ISIN1", "ISIN2", "10.50", "10.40", "10.60", "01-Jan-2024"]]) =
      some ([{ Name := "Open Ended Schemes",
               FundHouses := [{ Name := "ABC Mutual Fund",
                                Funds := [{ SchemeCode := "101", SchemeName := "Scheme One",
                                            ISINDivPayout := "ISIN1",
                                            ISINDivReinvestment := "ISIN2",
                                            NetAssetValue := "10.50",
                                            RepurchasePrice := "10.40", SalePrice := "10.60",
                                            Date := "01-Jan-2024" }] }] }], none) :=
  ⟨by decide, by decide, by decide, by decide,
   C3_one_category_one_house "Open Ended Schemes" "ABC Mutual Fund"
     ["101", "Scheme One", "ISIN1", "ISIN2", "10.50", "10.40", "10.60", "01-Jan-2024"] []
     (by decide) (by decide) (by decide) (by decide)⟩

/-- C4: for every finite sequence of records, the fund entries of the result of
`readCSV`, taken in tree order, form a subsequence of the positional verbatim
copies of the 8-field records of the input, in input order. -/
theorem C4_entries_subsequence_of_rows (recs : List (List String)) :
    ∃ cats, readCSV (delivered recs) = some (cats, none) ∧
      allFunds cats <+ (recs.filter fun r => r.length == 8).map positionalCopy :=
  ⟨_, readCSV_delivered recs, allFunds_sublist recs⟩

/-- C5: for every finite sequence of records, the category names of the result
of `readCSV`, in result order, form a subsequence of the trimmed texts of the
category headers of the input, and the names of all emitted fund houses, in tree
order, form a subsequence of the trimmed texts of the fund-house headers of the
input, both in input order. -/
theorem C5_names_subsequence_of_headers (recs : List (List String)) :
    ∃ cats, readCSV (delivered recs) = some (cats, none) ∧
      cats.map (fun c => c.Name) <+ (recs.filter isCategoryHeader).map headerName ∧
      (allFundHouses cats).map (fun fh => fh.Name) <+
        (recs.filter isFundHouseHeader).map headerName :=
  ⟨_, readCSV_delivered recs, categoryNames_sublist recs, houseNames_sublist recs⟩

/-- C6: when the input is `pre ++ [r]` with `r` an 8-field record, `c` the last
category header of `pre` and `f` the last fund-house header of `pre`, lying after
`c` (so `pre = a ++ [c] ++ b ++ [f] ++ d` with no category header in `b` and no
header in `d`), the result of `readCSV` is non-empty, its last category is named
by the trimmed text of `c`, the last fund house of that category is named by the
trimmed text of `f`, and the last entry of that fund house is the positional copy
of `r`. -/
theorem C6_final_group_kept (a b d : List (List String)) (c f r : List String)
    (hc : isCategoryHeader c = true)
    (hb : ∀ x ∈ b, isCategoryHeader x = false)
    (hf : isFundHouseHeader f = true)
    (hd : ∀ x ∈ d, isCategoryHeader x = false ∧ isFundHouseHeader x = false)
    (hr : r.length = 8) :
    ∃ cats cat houses fh funds,
      readCSV (delivered (a ++ c :: (b ++ f :: (d ++ [r])))) = some (cats ++ [cat], none) ∧
      cat.Name = headerName c ∧ cat.FundHouses = houses ++ [fh] ∧
      fh.Name = headerName f ∧ fh.Funds = funds ++ [positionalCopy r] := by
  rw [readCSV_delivered]
  simp only [List.foldl_append, List.foldl_cons, List.foldl_nil]
  generalize a.foldl applyRecord initState = s0
  have hrc : isCategoryHeader r = false := by
    obtain ⟨x0, x1, x2, x3, x4, x5, x6, x7, rfl⟩ := length_eq_eight hr
    rfl
  -- the category cursor after the whole input
  have hcat : (applyRecord (d.foldl applyRecord (applyRecord (b.foldl applyRecord
      (applyRecord s0 c)) f)) r).currentCategory.map (fun c => c.Name) =
      some (headerName c) := by
    rw [categoryName_step _ hrc, categoryName_foldl d _ (fun x hx => (hd x hx).1),
      categoryName_step _ (isCategoryHeader_of_house hf), categoryName_foldl b _ hb,
      categoryName_of_header s0 hc]
  -- the fund-house cursor before the last row
  have hfh : (d.foldl applyRecord (applyRecord (b.foldl applyRecord
      (applyRecord s0 c)) f)).currentFundHouse.map (fun fh => fh.Name) =
      some (headerName f) := by
    rw [houseName_foldl d _ hd, houseName_of_header _ hf]
  generalize d.foldl applyRecord (applyRecord (b.foldl applyRecord (applyRecord s0 c)) f) = s1
    at hcat hfh
  rw [applyRecord_row s1 hr] at hcat ⊢
  cases hs1 : s1.currentFundHouse with
  | none => simp [hs1] at hfh
  | some fh0 =>
    cases hs2 : s1.currentCategory with
    | none => simp [hs2] at hcat
    | some cat0 =>
      simp only [hs1, Option.map_some', Option.some.injEq] at hfh
      simp only [hs2, Option.map_some', Option.some.injEq] at hcat
      refine ⟨s1.categories,
        { cat0 with FundHouses := cat0.FundHouses ++
            [{ fh0 with Funds := fh0.Funds ++ [positionalCopy r] }] },
        cat0.FundHouses, { fh0 with Funds := fh0.Funds ++ [positionalCopy r] }, fh0.Funds,
        ?_, hcat, rfl, hfh, rfl⟩
      simp [finish, finalizeFundHouse, emitCategory]

/-- An instance of C6: a second category whose single fund house receives the
last row of the input. -/
theorem C6_final_group_kept_witness :
    isCategoryHeader ["Close Ended Schemes"] = true ∧
    (∀ x ∈ [["Old Fund"]], isCategoryHeader x = false) ∧
    isFundHouseHeader ["XYZ Fund"] = true ∧
    (∀ x ∈ [[" "], ["201", "S", "I1", "I2", "20", "19", "21", "02-Jan-2024"]],
      isCategoryHeader x = false ∧ isFundHouseHeader x = false) ∧
    ["202", "Scheme Two", "I1", "I2", "20", "19", "21", "02-Jan-2024"].length = 8 ∧
    ∃ cats cat houses fh funds,
      readCSV (delivered ([["Open Ended Schemes"]] ++ ["Close Ended Schemes"] ::
        ([["Old Fund"]] ++ ["XYZ Fund"] ::
          ([[" "], ["201", "S", "I1", "I2", "20", "19", "21", "02-Jan-2024"]] ++
            [["202", "Scheme Two", "I1", "I2", "20", "19", "21", "02-Jan-2024"]])))) =
        some (cats ++ [cat], none) ∧
      cat.Name = headerName ["Close Ended Schemes"] ∧ cat.FundHouses = houses ++ [fh] ∧
      fh.Name = headerName ["XYZ Fund"] ∧
      fh.Funds = funds ++
        [positionalCopy ["202", "Scheme Two", "I1", "I2", "20", "19", "21", "02-Jan-2024"]] :=
  ⟨by decide, by decide, by decide, by decide, by decide,
   C6_final_group_kept [["Open Ended Schemes"]] [["Old Fund"]]
     [[" "], ["201", "S", "I1", "I2", "20", "19", "21", "02-Jan-2024"]]
     ["Close Ended Schemes"] ["XYZ Fund"]
     ["202", "Scheme Two", "I1", "I2", "20", "19", "21", "02-Jan-2024"]
     (by decide) (by decide) (by decide) (by decide) (by decide)⟩

/-- C7: when two fund-house headers `h1`, `h2` follow each other directly, the
first one yields no fund house: the result of `readCSV` on
`pre ++ [h1, h2] ++ post` is its result on `pre ++ [h2] ++ post`, a list of
categories returned without error. -/
theorem C7_header_without_rows_dropped (pre post : List (List String)) (h1 h2 : List String)
    (hh1 : isFundHouseHeader h1 = true) (hh2 : isFundHouseHeader h2 = true) :
    readCSV (delivered (pre ++ h1 :: h2 :: post)) = readCSV (delivered (pre ++ h2 :: post)) ∧
      ∃ cats, readCSV (delivered (pre ++ h2 :: post)) = some (cats, none) := by
  refine ⟨?_, _, readCSV_delivered _⟩
  rw [readCSV_delivered, readCSV_delivered]
  simp only [List.foldl_append, List.foldl_cons]
  rw [applyRecord_house_twice _ hh1 hh2]

/-- An instance of C7 in which the first of the two headers names no fund house
of the result. -/
theorem C7_header_without_rows_dropped_witness :
    isFundHouseHeader ["ABC Mutual Fund"] = true ∧ isFundHouseHeader ["XYZ Fund"] = true ∧
    (readCSV (delivered ([["Open Ended Schemes"]] ++ ["ABC Mutual Fund"] :: ["XYZ Fund"] ::
        [["202", "Scheme Two", "I1", "I2", "20", "19", "21", "02-Jan-2024"]])) =
      readCSV (delivered ([["Open Ended Schemes"]] ++ ["XYZ Fund"] ::
        [["202", "Scheme Two", "I1", "I2", "20", "19", "21", "02-Jan-2024"]])) ∧
     ∃ cats, readCSV (delivered ([["Open Ended Schemes"]] ++ ["XYZ Fund"] ::
        [["202", "Scheme Two", "I1", "I2", "20", "19", "21", "02-Jan-2024"]])) =
      some (cats, none)) :=
  ⟨by decide, by decide,
   C7_header_without_rows_dropped [["Open Ended Schemes"]]
     [["202", "Scheme Two", "I1", "I2", "20", "19", "21", "02-Jan-2024"]]
     ["ABC Mutual Fund"] ["XYZ Fund"] (by decide) (by decide)⟩

/-- C8: a blank record (exactly one field, empty after trimming) anywhere in the
input changes nothing: the result of `readCSV` on `pre ++ [b] ++ post` is its
result on `pre ++ post`, a list of categories returned without error. -/
theorem C8_blank_record_ignored (pre post : List (List String)) (b : List String)
    (hb : isBlank b = true) :
    readCSV (delivered (pre ++ b :: post)) = readCSV (delivered (pre ++ post)) ∧
      ∃ cats, readCSV (delivered (pre ++ post)) = some (cats, none) := by
  refine ⟨?_, _, readCSV_delivered _⟩
  rw [readCSV_delivered, readCSV_delivered]
  simp only [List.foldl_append, List.foldl_cons]
  rw [applyRecord_isBlank _ hb]

/-- Scenario C of the specification, as an instance of C8: a blank record between
two rows of one fund house; both rows stay in that single fund house. -/
theorem C8_scenario_C :
    isBlank ["  "] = true ∧
    (readCSV (delivered ([["Open Ended Schemes"], ["ABC Mutual Fund"],
        ["101", "Scheme One", "ISIN1", "ISIN2", "10.50", "10.40", "10.60", "01-Jan-2024"]] ++
        ["  "] :: [["102", "Scheme Two", "ISIN3", "ISIN4", "11", "10", "12", "01-Jan-2024"]])) =
      readCSV (delivered ([["Open Ended Schemes"], ["ABC Mutual Fund"],
        ["101", "Scheme One", "ISIN1", "ISIN2", "10.50", "10.40", "10.60", "01-Jan-2024"]] ++
        [["102", "Scheme Two", "ISIN3", "ISIN4", "11", "10", "12", "01-Jan-2024"]])) ∧
     ∃ cats, readCSV (delivered ([["Open Ended Schemes"], ["ABC Mutual Fund"],
        ["101", "Scheme One", "ISIN1", "ISIN2", "10.50", "10.40", "10.60", "01-Jan-2024"]] ++
        [["102", "Scheme Two", "ISIN3", "ISIN4", "11", "10", "12", "01-Jan-2024"]])) =
      some (cats, none)) ∧
    readCSV (delivered ([["Open Ended Schemes"], ["ABC Mutual Fund"],
        ["101", "Scheme One", "ISIN1", "ISIN2", "10.50", "10.40", "10.60", "01-Jan-2024"]] ++
        ["  "] :: [["102", "Scheme Two", "ISIN3", "ISIN4", "11", "10", "12", "01-Jan-2024"]])) =
      some ([{ Name := "Open Ended Schemes",
               FundHouses :=
                 [{ Name := "ABC Mutual Fund",
                    Funds :=
                      [positionalCopy
                         ["101", "Scheme One", "ISIN1", "ISIN2", "10.50", "10.40", "10.60",
                           "01-Jan-2024"],
                       positionalCopy
                         ["102", "Scheme Two", "ISIN3", "ISIN4", "11", "10", "12",
                           "01-Jan-2024"]] }] }], none) :=
  ⟨by decide,
   C8_blank_record_ignored _ _ ["  "] (by decide),
   by decide⟩

/-- C9: records read before the first category header leave no trace: when `pre`
contains no category header, the result of `readCSV` on `pre ++ rest` is its
result on `rest` alone (a list of categories returned without error), and its
result on `pre` alone is empty. -/
theorem C9_nothing_before_first_category (pre rest : List (List String))
    (h : ∀ x ∈ pre, isCategoryHeader x = false) :
    readCSV (delivered (pre ++ rest)) = readCSV (delivered rest) ∧
      (∃ cats, readCSV (delivered rest) = some (cats, none)) ∧
      readCSV (delivered pre) = some ([], none) := by
  have hsim := Sim_of_no_category pre h
  refine ⟨?_, ⟨_, readCSV_delivered _⟩, ?_⟩
  · rw [readCSV_delivered, readCSV_delivered, List.foldl_append,
      Sim_finish (Sim_foldl rest hsim)]
  · rw [readCSV_delivered, Sim_finish hsim]
    rfl

/-- Scenario B of the specification, as an instance of C9: the fund house named
before any category is absent from the result. -/
theorem C9_scenario_B :
    (∀ x ∈ [["ABC Mutual Fund"]], isCategoryHeader x = false) ∧
    (readCSV (delivered ([["ABC Mutual Fund"]] ++ [["Close Ended Schemes"], ["XYZ Fund"],
        ["202", "Scheme Two", "I1", "I2", "20", "19", "21", "02-Jan-2024"]])) =
      readCSV (delivered [["Close Ended Schemes"], ["XYZ Fund"],
        ["202", "Scheme Two", "I1", "I2", "20", "19", "21", "02-Jan-2024"]]) ∧
     (∃ cats, readCSV (delivered [["Close Ended Schemes"], ["XYZ Fund"],
        ["202", "Scheme Two", "I1", "I2", "20", "19", "21", "02-Jan-2024"]]) =
       some (cats, none)) ∧
     readCSV (delivered [["ABC Mutual Fund"]]) = some ([], none)) ∧
    readCSV (delivered ([["ABC Mutual Fund"]] ++ [["Close Ended Schemes"], ["XYZ Fund"],
        ["202", "Scheme Two", "I1", "I2", "20", "19", "21", "02-Jan-2024"]])) =
      some ([{ Name := "Close Ended Schemes",
               FundHouses :=
                 [{ Name := "XYZ Fund",
                    Funds :=
                      [positionalCopy
                         ["202", "Scheme Two", "I1", "I2", "20", "19", "21",
                           "02-Jan-2024"]] }] }], none) :=
  ⟨by decide,
   C9_nothing_before_first_category [["ABC Mutual Fund"]] [["Close Ended Schemes"],
     ["XYZ Fund"], ["202", "Scheme Two", "I1", "I2", "20", "19", "21", "02-Jan-2024"]]
     (by decide),
   by decide⟩

/-- C10: an 8-field record read while no fund house is open is dropped. When
`pre` has no fund-house header after its last category header (or has no header
at all), the result of `readCSV` on `pre ++ [r] ++ post` is its result on
`pre ++ post`, a list of categories returned without error. -/
theorem C10_row_without_open_house_dropped (pre post : List (List String)) (r : List String)
    (hr : r.length = 8)
    (hpre : (∃ a c b, pre = a ++ c :: b ∧ isCategoryHeader c = true ∧
               ∀ x ∈ b, isCategoryHeader x = false ∧ isFundHouseHeader x = false) ∨
            (∀ x ∈ pre, isCategoryHeader x = false ∧ isFundHouseHeader x = false)) :
    readCSV (delivered (pre ++ r :: post)) = readCSV (delivered (pre ++ post)) ∧
      ∃ cats, readCSV (delivered (pre ++ post)) = some (cats, none) := by
  refine ⟨?_, _, readCSV_delivered _⟩
  have hnone : (pre.foldl applyRecord initState).currentFundHouse = none := by
    rcases hpre with ⟨a, c, b, rfl, hc, hb⟩ | hall
    · rw [List.foldl_append, List.foldl_cons]
      exact house_none_of_no_header b _ (house_none_after_header _ hc) hb
    · exact house_none_of_no_header pre initState rfl hall
  rw [readCSV_delivered, readCSV_delivered]
  simp only [List.foldl_append, List.foldl_cons]
  rw [applyRecord_row_dropped _ hr hnone]

/-- An instance of C10: a row directly after the second category header is not
attributed to the fund house of the first category. -/
theorem C10_row_without_open_house_dropped_witness :
    ["999", "Stray", "I1", "I2", "1", "1", "1", "02-Jan-2024"].length = 8 ∧
    ((∃ a c b, [["Open Ended Schemes"], ["ABC Mutual Fund"],
          ["101", "Scheme One", "ISIN1", "ISIN2", "10.50", "10.40", "10.60", "01-Jan-2024"],
          ["Close Ended Schemes"], [""]] = a ++ c :: b ∧ isCategoryHeader c = true ∧
        ∀ x ∈ b, isCategoryHeader x = false ∧ isFundHouseHeader x = false) ∨
      (∀ x ∈ [["Open Ended Schemes"], ["ABC Mutual Fund"],
          ["101", "Scheme One", "ISIN1", "ISIN2", "10.50", "10.40", "10.60", "01-Jan-2024"],
          ["Close Ended Schemes"], [""]],
        isCategoryHeader x = false ∧ isFundHouseHeader x = false)) ∧
    (readCSV (delivered ([["Open Ended Schemes"], ["ABC Mutual Fund"],
        ["101", "Scheme One", "ISIN1", "ISIN2", "10.50", "10.40", "10.60", "01-Jan-2024"],
        ["Close Ended Schemes"], [""]] ++
        ["999", "Stray", "I1", "I2", "1", "1", "1", "02-Jan-2024"] :: [["XYZ Fund"]])) =
      readCSV (delivered ([["Open Ended Schemes"], ["ABC Mutual Fund"],
        ["101", "Scheme One", "ISIN1", "ISIN2", "10.50", "10.40", "10.60", "01-Jan-2024"],
        ["Close Ended Schemes"], [""]] ++ [["XYZ Fund"]])) ∧
     ∃ cats, readCSV (delivered ([["Open Ended Schemes"], ["ABC Mutual Fund"],
        ["101", "Scheme One", "ISIN1", "ISIN2", "10.50", "10.40", "10.60", "01-Jan-2024"],
        ["Close Ended Schemes"], [""]] ++ [["XYZ Fund"]])) = some (cats, none)) :=
  ⟨by decide,
   Or.inl ⟨[["Open Ended Schemes"], ["ABC Mutual Fund"],
      ["101", "Scheme One", "ISIN1", "ISIN2", "10.50", "10.40", "10.60", "01-Jan-2024"]],
      ["Close Ended Schemes"], [[""]], rfl, by decide, by decide⟩,
   C10_row_without_open_house_dropped _ [["XYZ Fund"]]
     ["999", "Stray", "I1", "I2", "1", "1", "1", "02-Jan-2024"] (by decide)
     (Or.inl ⟨[["Open Ended Schemes"], ["ABC Mutual Fund"],
      ["101", "Scheme One", "ISIN1", "ISIN2", "10.50", "10.40", "10.60", "01-Jan-2024"]],
      ["Close Ended Schemes"], [[""]], rfl, by decide, by decide⟩)⟩

/-- C11: a record whose field count is neither 1 nor 8 is a no-op: the result
of `readCSV` on `pre ++ [x] ++ post` is its result on `pre ++ post`, a list of
categories returned without error, and the loop body leaves the finalized
categories, the open category and the open fund house as they were. -/
theorem C11_other_field_count_ignored (pre post : List (List String)) (x : List String)
    (h1 : x.length ≠ 1) (h8 : x.length ≠ 8) :
    readCSV (delivered (pre ++ x :: post)) = readCSV (delivered (pre ++ post)) ∧
      (∃ cats, readCSV (delivered (pre ++ post)) = some (cats, none)) ∧
      ∀ (st : ParserState) (rest : List ReadEvent),
        readLoop (ReadEvent.record x :: rest) st = readLoop rest st := by
  refine ⟨?_, ⟨_, readCSV_delivered _⟩, ?_⟩
  · rw [readCSV_delivered, readCSV_delivered]
    simp only [List.foldl_append, List.foldl_cons]
    rw [applyRecord_other _ h1 h8]
  · intro st rest
    rw [readLoop_record, applyRecord_other _ h1 h8]

/-- An instance of C11: a three-field record between a fund-house header and
its row. -/
theorem C11_other_field_count_ignored_witness :
    ["a", "b", "c"].length ≠ 1 ∧ ["a", "b", "c"].length ≠ 8 ∧
    (readCSV (delivered ([["Open Ended Schemes"], ["ABC Mutual Fund"]] ++ ["a", "b", "c"] ::
        [["101", "Scheme One", "ISIN1", "ISIN2", "10.50", "10.40", "10.60", "01-Jan-2024"]])) =
      readCSV (delivered ([["Open Ended Schemes"], ["ABC Mutual Fund"]] ++
        [["101", "Scheme One", "ISIN1", "ISIN2", "10.50", "10.40", "10.60", "01-Jan-2024"]])) ∧
     (∃ cats, readCSV (delivered ([["Open Ended Schemes"], ["ABC Mutual Fund"]] ++
        [["101", "Scheme One", "ISIN1", "ISIN2", "10.50", "10.40", "10.60", "01-Jan-2024"]])) =
      some (cats, none)) ∧
     ∀ (st : ParserState) (rest : List ReadEvent),
       readLoop (ReadEvent.record ["a", "b", "c"] :: rest) st = readLoop rest st) :=
  ⟨by decide, by decide,
   C11_other_field_count_ignored [["Open Ended Schemes"], ["ABC Mutual Fund"]]
     [["101", "Scheme One", "ISIN1", "ISIN2", "10.50", "10.40", "10.60", "01-Jan-2024"]]
     ["a", "b", "c"] (by decide) (by decide)⟩

/-- C12: on every finite sequence of records, of arbitrary field counts and
contents, delivered without failure, `readCSV` returns a list of categories and
no error, and no field access of the run is out of bounds: each of the three
indexing functions yields a value on every record the loop passes to it
(`parseFund` is called on 8-field records only). -/
theorem C12_returns_without_error_or_panic (recs : List (List String)) :
    (∃ cats, readCSV (delivered recs) = some (cats, none)) ∧
      (∀ (record : List String) (st : ParserState),
        (skipEmptyLines record).isSome = true ∧
        (parseCategoryOrFundHouse record st).isSome = true) ∧
      ∀ (f0 f1 f2 f3 f4 f5 f6 f7 : String) (cfh : Option FundHouse),
        (parseFund [f0, f1, f2, f3, f4, f5, f6, f7] cfh).isSome = true := by
  refine ⟨⟨_, readCSV_delivered recs⟩, ?_, ?_⟩
  · intro record st
    refine ⟨?_, ?_⟩
    · rcases record with _ | ⟨x, _ | ⟨y, r⟩⟩ <;> simp [skipEmptyLines]
    · rcases record with _ | ⟨x, _ | ⟨y, r⟩⟩
      · simp [parseCategoryOrFundHouse]
      · by_cases hc : Contains x "Schemes" = true <;> simp [parseCategoryOrFundHouse, hc]
      · simp [parseCategoryOrFundHouse]
  · intro f0 f1 f2 f3 f4 f5 f6 f7 cfh
    have h8 : [f0, f1, f2, f3, f4, f5, f6, f7].length = 8 := rfl
    rw [parseFund_of_length h8]
    rfl

/-- C13: when the record source fails after delivering a prefix of records,
`readCSV` returns that error together with the empty (nil) list of categories,
whatever the prefix contained. -/
theorem C13_source_failure_returns_error (pre : List (List String)) (err : ReadError)
    (rest : List ReadEvent) :
    readCSV (delivered pre ++ ReadEvent.failure err :: rest) = some ([], some err) := by
  unfold readCSV
  rw [readLoop_append]
  rfl

/-- C14: a single-field non-blank record is not skipped and is treated as the
specification classifies it by its trimmed text (category header when the
trimmed text contains "Schemes", fund-house header otherwise), and as nothing
else; the code tests the untrimmed field, and a text contains "Schemes" exactly
when its trimmed text does. -/
theorem C14_header_classification_agrees (x : String) (st : ParserState)
    (hb : TrimSpace x ≠ "") :
    skipEmptyLines [x] = some false ∧
      parseCategoryOrFundHouse [x] st =
        some (headerAction (specHeaderKind x) (TrimSpace x) st) ∧
      (∀ k, parseCategoryOrFundHouse [x] st = some (headerAction k (TrimSpace x) st) →
        k = specHeaderKind x) ∧
      ∀ s : String, Contains s "Schemes" = Contains (TrimSpace s) "Schemes" := by
  have hact : parseCategoryOrFundHouse [x] st =
      some (headerAction (specHeaderKind x) (TrimSpace x) st) := by
    by_cases hc : Contains x "Schemes" = true
    · simp [parseCategoryOrFundHouse, specHeaderKind, headerAction, Contains_TrimSpace, hc]
    · simp [parseCategoryOrFundHouse, specHeaderKind, headerAction, Contains_TrimSpace, hc]
  refine ⟨by simp [skipEmptyLines, hb], hact, ?_, fun s => (Contains_TrimSpace s).symm⟩
  intro k hk
  rw [hact] at hk
  have hfh := congrArg ParserState.currentFundHouse (Option.some.inj hk)
  cases k <;> cases hs : specHeaderKind x <;> simp [hs, headerAction] at hfh <;> rfl

/-- An instance of C14: a category header with surrounding white space. -/
theorem C14_header_classification_agrees_witness :
    TrimSpace "  Open Ended Schemes \t" ≠ "" ∧
    (skipEmptyLines ["  Open Ended Schemes \t"] = some false ∧
      parseCategoryOrFundHouse ["  Open Ended Schemes \t"] initState =
        some (headerAction (specHeaderKind "  Open Ended Schemes \t")
          (TrimSpace "  Open Ended Schemes \t") initState) ∧
      (∀ k, parseCategoryOrFundHouse ["  Open Ended Schemes \t"] initState =
          some (headerAction k (TrimSpace "  Open Ended Schemes \t") initState) →
        k = specHeaderKind "  Open Ended Schemes \t") ∧
      ∀ s : String, Contains s "Schemes" = Contains (TrimSpace s) "Schemes") :=
  ⟨by decide, C14_header_classification_agrees "  Open Ended Schemes \t" initState (by decide)⟩

/-- C18: for every finite sequence of records, every category name of the result
of `readCSV` contains "Schemes", every fund-house name of the result is
non-empty and does not contain "Schemes", and every emitted name has no leading
or trailing white space, being the trimmed text of a category header,
respectively of a fund-house header, of the input. -/
theorem C18_emitted_names (recs : List (List String)) :
    ∃ cats, readCSV (delivered recs) = some (cats, none) ∧
      ∀ c ∈ cats,
        (Contains c.Name "Schemes" = true ∧ noEdgeSpace c.Name = true ∧
          c.Name ∈ (recs.filter isCategoryHeader).map headerName) ∧
        ∀ fh ∈ c.FundHouses,
          fh.Name ≠ "" ∧ Contains fh.Name "Schemes" = false ∧ noEdgeSpace fh.Name = true ∧
            fh.Name ∈ (recs.filter isFundHouseHeader).map headerName := by
  refine ⟨_, readCSV_delivered recs, ?_⟩
  intro c hc
  have hcn : c.Name ∈ (recs.filter isCategoryHeader).map headerName :=
    (categoryNames_sublist recs).subset (List.mem_map.mpr ⟨c, hc, rfl⟩)
  refine ⟨⟨(categoryHeaderName_props hcn).1, (categoryHeaderName_props hcn).2, hcn⟩, ?_⟩
  intro fh hfh
  have hfn : fh.Name ∈ (recs.filter isFundHouseHeader).map headerName :=
    (houseNames_sublist recs).subset
      (List.mem_map.mpr ⟨fh, mem_allFundHouses hc hfh, rfl⟩)
  have hp := houseHeaderName_props hfn
  exact ⟨hp.1, hp.2.1, hp.2.2, hfn⟩

/-- C15: a category header finalizes everything before it: when `c` is a
category header, the result of `readCSV` on `a ++ [c] ++ b` is its result on `a`
followed by its result on `[c] ++ b`, all three returned without error. -/
theorem C15_category_header_splits_input (a b : List (List String)) (c : List String)
    (hc : isCategoryHeader c = true) :
    ∃ r1 r2, readCSV (delivered a) = some (r1, none) ∧
      readCSV (delivered (c :: b)) = some (r2, none) ∧
      readCSV (delivered (a ++ c :: b)) = some (r1 ++ r2, none) := by
  refine ⟨_, _, readCSV_delivered a, readCSV_delivered (c :: b), ?_⟩
  rw [readCSV_delivered]
  simp only [List.foldl_append, List.foldl_cons]
  rw [applyRecord_header_eq _ hc, foldl_withPrefix, finish_withPrefix]

/-- An instance of C15 with one group before and one group after the header. -/
theorem C15_category_header_splits_input_witness :
    isCategoryHeader ["Close Ended Schemes"] = true ∧
    ∃ r1 r2,
      readCSV (delivered [["Open Ended Schemes"], ["ABC Mutual Fund"],
        ["101", "Scheme One", "ISIN1", "ISIN2", "10.50", "10.40", "10.60", "01-Jan-2024"]]) =
        some (r1, none) ∧
      readCSV (delivered (["Close Ended Schemes"] :: [["XYZ Fund"],
        ["202", "Scheme Two", "I1", "I2", "20", "19", "21", "02-Jan-2024"]])) =
        some (r2, none) ∧
      readCSV (delivered ([["Open Ended Schemes"], ["ABC Mutual Fund"],
        ["101", "Scheme One", "ISIN1", "ISIN2", "10.50", "10.40", "10.60", "01-Jan-2024"]] ++
        ["Close Ended Schemes"] :: [["XYZ Fund"],
        ["202", "Scheme Two", "I1", "I2", "20", "19", "21", "02-Jan-2024"]])) =
        some (r1 ++ r2, none) :=
  ⟨by decide,
   C15_category_header_splits_input
     [["Open Ended Schemes"], ["ABC Mutual Fund"],
       ["101", "Scheme One", "ISIN1", "ISIN2", "10.50", "10.40", "10.60", "01-Jan-2024"]]
     [["XYZ Fund"], ["202", "Scheme Two", "I1", "I2", "20", "19", "21", "02-Jan-2024"]]
     ["Close Ended Schemes"] (by decide)⟩

/-- C16: round trip on well-formed trees. When every category has at least one
fund house and a trimmed name containing "Schemes", and every fund house has at
least one entry and a trimmed, non-empty name not containing "Schemes",
`readCSV` on the flattened tree returns exactly the tree. -/
theorem C16_round_trip (cats : List SchemeCategory) (hw : WellFormedTree cats) :
    readCSV (delivered (flattenTree cats)) = some (cats, none) := by
  rw [readCSV_delivered, finish_tree cats hw initState]
  rfl

/-- An instance of C16: a tree of two categories, the first with two fund
houses. -/
theorem C16_round_trip_witness :
    WellFormedTree
      [{ Name := "Open Ended Schemes",
         FundHouses :=
           [{ Name := "ABC Mutual Fund",
              Funds := [positionalCopy ["101", "One", "I1", "I2", "10.5", "10.4", "10.6", "D1"],
                        positionalCopy ["102", "Two", "I3", "I4", "11", "10", "12", "D1"]] },
            { Name := "XYZ Fund",
              Funds := [positionalCopy ["201", "Three", "", "", "20", "", "", "D1"]] }] },
       { Name := "Close Ended Schemes",
         FundHouses :=
           [{ Name := "ABC Mutual Fund",
              Funds := [positionalCopy ["301", "Four", "I5", "I6", "30", "29", "31", "D2"]] }] }] ∧
    readCSV (delivered (flattenTree
      [{ Name := "Open Ended Schemes",
         FundHouses :=
           [{ Name := "ABC Mutual Fund",
              Funds := [positionalCopy ["101", "One", "I1", "I2", "10.5", "10.4", "10.6", "D1"],
                        positionalCopy ["102", "Two", "I3", "I4", "11", "10", "12", "D1"]] },
            { Name := "XYZ Fund",
              Funds := [positionalCopy ["201", "Three", "", "", "20", "", "", "D1"]] }] },
       { Name := "Close Ended Schemes",
         FundHouses :=
           [{ Name := "ABC Mutual Fund",
              Funds := [positionalCopy ["301", "Four", "I5", "I6", "30", "29", "31", "D2"]] }] }])) =
      some
        ([{ Name := "Open Ended Schemes",
            FundHouses :=
              [{ Name := "ABC Mutual Fund",
                 Funds := [positionalCopy ["101", "One", "I1", "I2", "10.5", "10.4", "10.6", "D1"],
                           positionalCopy ["102", "Two", "I3", "I4", "11", "10", "12", "D1"]] },
               { Name := "XYZ Fund",
                 Funds := [positionalCopy ["201", "Three", "", "", "20", "", "", "D1"]] }] },
          { Name := "Close Ended Schemes",
            FundHouses :=
              [{ Name := "ABC Mutual Fund",
                 Funds :=
                   [positionalCopy ["301", "Four", "I5", "I6", "30", "29", "31", "D2"]] }] }],
         none) :=
  ⟨by unfold WellFormedTree WellFormedCategory WellFormedHouse; decide,
   C16_round_trip _ (by unfold WellFormedTree WellFormedCategory WellFormedHouse; decide)⟩

/-- C17: exact retention of data rows. For every finite sequence of records, the
entries of the result of `readCSV`, in tree order, are the positional copies of
exactly those 8-field records that are read while both a category and a fund
house are open, each once and in input order. -/
theorem C17_exact_retention (recs : List (List String)) :
    ∃ cats, readCSV (delivered recs) = some (cats, none) ∧
      allFunds cats = (retainedRows recs).map positionalCopy :=
  ⟨_, readCSV_delivered recs, allFunds_retained recs⟩

/-- C19: groups are never merged by name. On the input `[c, f, r1, c, f, r2]`,
with `c` a category header, `f` a fund-house header and `r1`, `r2` 8-field
records, `readCSV` returns two separate categories of the same name, each with
its own fund house and entry. -/
theorem C19_same_name_not_merged (c f : String) (r1 r2 : List String)
    (hc : Contains c "Schemes" = true)
    (hfb : TrimSpace f ≠ "") (hfc : Contains f "Schemes" = false)
    (h1 : r1.length = 8) (h2 : r2.length = 8) :
    readCSV (delivered [[c], [f], r1, [c], [f], r2]) =
      some ([{ Name := TrimSpace c,
               FundHouses := [{ Name := TrimSpace f, Funds := [positionalCopy r1] }] },
             { Name := TrimSpace c,
               FundHouses := [{ Name := TrimSpace f, Funds := [positionalCopy r2] }] }],
            none) := by
  rw [readCSV_delivered]
  simp only [List.foldl_cons, List.foldl_nil, initState]
  rw [applyRecord_category _ hc, applyRecord_house _ hfb hfc, applyRecord_row _ h1,
    applyRecord_category _ hc, applyRecord_house _ hfb hfc, applyRecord_row _ h2]
  simp [finish, finalizeFundHouse, emitCategory]

/-- An instance of C19: "Open Ended Schemes" occurs twice and yields two
categories, not one merged category holding both rows. -/
theorem C19_same_name_not_merged_witness :
    Contains "Open Ended Schemes" "Schemes" = true ∧
    TrimSpace "ABC Mutual Fund" ≠ "" ∧ Contains "ABC Mutual Fund" "Schemes" = false ∧
    ["101", "Scheme One", "ISIN1", "ISIN2", "10.50", "10.40", "10.60", "01-Jan-2024"].length = 8 ∧
    ["102", "Scheme Two", "ISIN3", "ISIN4", "11", "10", "12", "01-Jan-2024"].length = 8 ∧
    readCSV (delivered [["Open Ended Schemes"], ["ABC Mutual Fund"],
        ["101", "Scheme One", "ISIN1", "ISIN2", "10.50", "10.40", "10.60", "01-Jan-2024"],
        ["Open Ended Schemes"], ["ABC Mutual Fund"],
        ["102", "Scheme Two", "ISIN3", "ISIN4", "11", "10", "12", "01-Jan-2024"]]) =
      some ([{ Name := "Open Ended Schemes",
               FundHouses :=
                 [{ Name := "ABC Mutual Fund",
                    Funds :=
                      [positionalCopy
                         ["101", "Scheme One", "ISIN1", "ISIN2", "10.50", "10.40", "10.60",
                           "01-Jan-2024"]] }] },
             { Name := "Open Ended Schemes",
               FundHouses :=
                 [{ Name := "ABC Mutual Fund",
                    Funds :=
                      [positionalCopy
                         ["102", "Scheme Two", "ISIN3", "ISIN4", "11", "10", "12",
                           "01-Jan-2024"]] }] }],
            none) :=
  ⟨by decide, by decide, by decide, by decide, by decide,
   C19_same_name_not_merged "Open Ended Schemes" "ABC Mutual Fund"
     ["101", "Scheme One", "ISIN1", "ISIN2", "10.50", "10.40", "10.60", "01-Jan-2024"]
     ["102", "Scheme Two", "ISIN3", "ISIN4", "11", "10", "12", "01-Jan-2024"]
     (by decide) (by decide) (by decide) (by decide) (by decide)⟩

end MfNavParser
